import Mathlib

/-!
Verification of the Canvas scene editor against its design specification.

The development shallowly embeds the TypeScript sources:
  * src/types/element.ts        — the element data model
  * src/stores/canvasStore.ts   — the Pinia ElementStore (elements, selection,
                                  viewport, clipboard copy/paste)
  * src/utils/coordinates.ts    — the screen/world coordinate maps
  * src/components/TextEditor.vue  — the span/markup codec (convertSpansToHtml,
                                  parseHtmlToSpans)
  * src/components/Transformer (FloatingToolbar.vue document) — bounding-box
                                  resize (isResizable, handleResizeMove)
  * src/components/CanvasBoard.vue — marquee selection and the text-edit
                                  commit handler (handleTextUpdate)

Modelling conventions: JS numbers are embedded as exact rationals, JS strings
holding user text as lists of characters, uuid generation as an externally
supplied fresh-id argument, and localStorage clipboard content as an explicit
ClipboardData value distinguishing the absent / unparsable / non-array /
parsed-array cases.  The field named rot embeds the source field storing the
element's angle in radians.
-/

namespace Canvas

/-- A 2D point, as used for both screen and world coordinates. -/
structure Pt where
  x : ℚ
  y : ℚ
deriving DecidableEq, Repr

/-- The PixiJS stage data that src/utils/coordinates.ts reads: position and
per-axis scale. -/
structure Stage where
  x : ℚ
  y : ℚ
  scaleX : ℚ
  scaleY : ℚ
deriving DecidableEq, Repr

/-- screenToWorld from src/utils/coordinates.ts:
x = (screenPoint.x - stage.x) / stage.scale.x, likewise for y. -/
def screenToWorld (screenPoint : Pt) (stage : Stage) : Pt :=
  { x := (screenPoint.x - stage.x) / stage.scaleX
    y := (screenPoint.y - stage.y) / stage.scaleY }

/-- worldToScreen from src/utils/coordinates.ts:
x = worldPoint.x * stage.scale.x + stage.x, likewise for y. -/
def worldToScreen (worldPoint : Pt) (stage : Stage) : Pt :=
  { x := worldPoint.x * stage.scaleX + stage.x
    y := worldPoint.y * stage.scaleY + stage.y }

/-- A rich-text span from src/types/element.ts: text plus four optional style
flags (in TS each flag is boolean-or-absent; here Option Bool, none = absent).
The text is embedded as a character list. -/
structure TextSpan where
  text : List Char
  bold : Option Bool := none
  italic : Option Bool := none
  underline : Option Bool := none
  strikethrough : Option Bool := none
deriving DecidableEq, Repr

/-- JS truthiness of an optional boolean: only an explicit true is truthy. -/
def truthy : Option Bool → Bool
  | some true => true
  | _ => false

/-- Per-variant payload of the CanvasElement discriminated union in
src/types/element.ts. -/
inductive ElementPayload where
  | rectangle (fillColor strokeColor : String) (strokeWidth opacity : ℚ)
  | circle (fillColor strokeColor : String) (strokeWidth opacity : ℚ)
  | roundedRectangle (fillColor strokeColor : String) (strokeWidth opacity : ℚ)
      (borderRadius : ℚ)
  | triangle (fillColor strokeColor : String) (strokeWidth opacity : ℚ)
  | image (src : String) (grayscale : Bool) (blur brightness : ℚ)
  | text (content : List TextSpan) (fontFamily : String) (fontSize : ℚ)
      (color backgroundColor : String)
deriving DecidableEq, Repr

/-- A canvas element: the BaseElement fields shared by every variant of the
union in src/types/element.ts, plus the variant payload.  rot embeds the
radian angle field of the source. -/
structure CanvasElement where
  id : String
  x : ℚ
  y : ℚ
  width : ℚ
  height : ℚ
  rot : ℚ
  isSelected : Bool
  payload : ElementPayload
deriving DecidableEq, Repr

/-- Discriminant test el.type === 'text'. -/
def CanvasElement.isText (el : CanvasElement) : Bool :=
  match el.payload with
  | .text .. => true
  | _ => false

/-- The content field of a text element, when the element is one. -/
def CanvasElement.textContent? (el : CanvasElement) : Option (List TextSpan) :=
  match el.payload with
  | .text content _ _ _ _ => some content
  | _ => none

/-- The activeTool enum of the store state. -/
inductive Tool where
  | select | rectangle | circle | roundedRectangle | triangle | text
deriving DecidableEq, Repr

/-- The CanvasState of src/stores/canvasStore.ts. -/
structure CanvasState where
  elements : List CanvasElement
  selectedElementIds : List String
  zoom : ℚ
  pan : Pt
  activeTool : Tool
  pasteCount : ℕ
deriving DecidableEq, Repr

/-! ### List helpers mirroring the JS idioms used by the store -/

/-- Apply f to the first list entry satisfying p, leaving the rest unchanged;
this is the find-then-mutate idiom of the store actions. -/
def updateFirst (p : α → Bool) (f : α → α) : List α → List α
  | [] => []
  | x :: xs => if p x then f x :: xs else x :: updateFirst p f xs

/-- Apply f to the last list entry satisfying p.  Models a mutation through a
Map built with new Map(list.map(x => [key(x), x])), whose value for a key is
the last list entry with that key. -/
def updateLast (p : α → Bool) (f : α → α) (l : List α) : List α :=
  (updateFirst p f l.reverse).reverse

/-- JS Set.add: append the element unless already present. -/
def jsSetAdd (l : List String) (x : String) : List String :=
  if x ∈ l then l else l ++ [x]

/-- Array.from(new Set(...)) applied to a list: first-occurrence order,
duplicates dropped. -/
def jsSetOfList (l : List String) : List String :=
  l.foldl jsSetAdd []

/-! ### ElementStore actions (src/stores/canvasStore.ts) -/

/-- The selectedElements getter: elements whose id is in the selection set. -/
def selectedElements (s : CanvasState) : List CanvasElement :=
  s.elements.filter (fun el => s.selectedElementIds.contains el.id)

/-- addElement: spread the given element, overwrite its id with the freshly
generated uuid (here the newId argument) and isSelected with false, and push. -/
def addElement (e : CanvasElement) (newId : String) (s : CanvasState) : CanvasState :=
  { s with elements := s.elements ++ [{ e with id := newId, isSelected := false }] }

/-- removeElement: keep only elements whose id differs from the argument. -/
def removeElement (elementId : String) (s : CanvasState) : CanvasState :=
  { s with elements := s.elements.filter (fun el => el.id ≠ elementId) }

/-- setSelectedElements: replace the selection with a copy of ids and reset
every element's isSelected flag to membership in the new selection. -/
def setSelectedElements (ids : List String) (s : CanvasState) : CanvasState :=
  { s with selectedElementIds := ids
           elements := s.elements.map
             (fun el => { el with isSelected := ids.contains el.id }) }

/-- clearSelection: setSelectedElements with the empty list. -/
def clearSelection (s : CanvasState) : CanvasState :=
  setSelectedElements [] s

/-- addToSelection: union via a JS Set seeded with the current selection,
then the atomic resync. -/
def addToSelection (ids : List String) (s : CanvasState) : CanvasState :=
  setSelectedElements (jsSetOfList (s.selectedElementIds ++ ids)) s

/-- removeFromSelection: filter the current selection, then the atomic
resync. -/
def removeFromSelection (ids : List String) (s : CanvasState) : CanvasState :=
  setSelectedElements (s.selectedElementIds.filter (fun id => ¬ id ∈ ids)) s

/-- The Partial CanvasElement record passed to updateElementTransform;
none means the key is absent from the partial object.  Only the BaseElement
fields are represented: no claim exercises partial updates of the
variant-specific style fields. -/
structure TransformUpdates where
  id : Option String := none
  x : Option ℚ := none
  y : Option ℚ := none
  width : Option ℚ := none
  height : Option ℚ := none
  rot : Option ℚ := none
  isSelected : Option Bool := none
deriving DecidableEq, Repr

/-- Object.assign(element, updates) for a TransformUpdates partial. -/
def applyTransformUpdates (u : TransformUpdates) (el : CanvasElement) : CanvasElement :=
  { el with
      id := u.id.getD el.id
      x := u.x.getD el.x
      y := u.y.getD el.y
      width := u.width.getD el.width
      height := u.height.getD el.height
      rot := u.rot.getD el.rot
      isSelected := u.isSelected.getD el.isSelected }

/-- updateElementTransform: find the first element with the id and
Object.assign the partial onto it. -/
def updateElementTransform (id : String) (u : TransformUpdates) (s : CanvasState) :
    CanvasState :=
  { s with elements := updateFirst (fun el => el.id == id) (applyTransformUpdates u) s.elements }

/-- The Partial TextElement record passed to updateTextElement. -/
structure TextUpdates where
  id : Option String := none
  x : Option ℚ := none
  y : Option ℚ := none
  width : Option ℚ := none
  height : Option ℚ := none
  rot : Option ℚ := none
  isSelected : Option Bool := none
  content : Option (List TextSpan) := none
  fontFamily : Option String := none
  fontSize : Option ℚ := none
  color : Option String := none
  backgroundColor : Option String := none
deriving DecidableEq, Repr

/-- Object.assign(element, updates) for a text element; the guard
element.type === 'text' makes this the identity on any other variant. -/
def applyTextUpdates (u : TextUpdates) (el : CanvasElement) : CanvasElement :=
  match el.payload with
  | .text content fontFamily fontSize color backgroundColor =>
    { el with
        id := u.id.getD el.id
        x := u.x.getD el.x
        y := u.y.getD el.y
        width := u.width.getD el.width
        height := u.height.getD el.height
        rot := u.rot.getD el.rot
        isSelected := u.isSelected.getD el.isSelected
        payload := .text (u.content.getD content) (u.fontFamily.getD fontFamily)
          (u.fontSize.getD fontSize) (u.color.getD color)
          (u.backgroundColor.getD backgroundColor) }
  | _ => el

/-- updateTextElement: find the first element with the id; assign the partial
if it is a text element, otherwise do nothing. -/
def updateTextElement (id : String) (u : TextUpdates) (s : CanvasState) : CanvasState :=
  { s with elements := updateFirst (fun el => el.id == id) (applyTextUpdates u) s.elements }

/-- deleteSelectedElements: early-return on an empty selection, otherwise drop
every selected element and clear the selection. -/
def deleteSelectedElements (s : CanvasState) : CanvasState :=
  if s.selectedElementIds.isEmpty then s
  else
    clearSelection
      { s with elements :=
          s.elements.filter (fun el => ¬ s.selectedElementIds.contains el.id) }

/-- One entry of the batch handed to updateElementsPositions. -/
structure PosUpdate where
  id : String
  x : ℚ
  y : ℚ
deriving DecidableEq, Repr

/-- updateElementsPositions: build an id-to-element Map (the value for an id is
the last element carrying it) and write each batch entry's x/y to the mapped
element, in batch order. -/
def updateElementsPositions (positions : List PosUpdate) (s : CanvasState) : CanvasState :=
  let step := fun (els : List CanvasElement) (pos : PosUpdate) =>
    updateLast (fun el => el.id == pos.id)
      (fun el => { el with x := pos.x, y := pos.y }) els
  { s with elements := positions.foldl step s.elements }

/-- The four formats handled by toggleTextFormatting. -/
inductive TextFormat where
  | bold | italic | underline | strikethrough
deriving DecidableEq, Repr

/-- Read span[format]. -/
def TextSpan.getFlag (sp : TextSpan) : TextFormat → Option Bool
  | .bold => sp.bold
  | .italic => sp.italic
  | .underline => sp.underline
  | .strikethrough => sp.strikethrough

/-- Write span[format] = v. -/
def TextSpan.setFlag (sp : TextSpan) (fmt : TextFormat) (v : Bool) : TextSpan :=
  match fmt with
  | .bold => { sp with bold := some v }
  | .italic => { sp with italic := some v }
  | .underline => { sp with underline := some v }
  | .strikethrough => { sp with strikethrough := some v }

/-- toggleTextFormatting: on the first element with the id, if it is a text
element, set the format on every span to the negation of "every span already
has it". -/
def toggleTextFormatting (id : String) (fmt : TextFormat) (s : CanvasState) : CanvasState :=
  let touch := fun (el : CanvasElement) =>
    match el.payload with
    | .text content fontFamily fontSize color backgroundColor =>
      let allTrue := content.all (fun sp => truthy (sp.getFlag fmt))
      let newValue := !allTrue
      let newContent := content.map (fun sp => sp.setFlag fmt newValue)
      { el with payload := .text newContent fontFamily fontSize color backgroundColor }
    | _ => el
  { s with elements := updateFirst (fun el => el.id == id) touch s.elements }

/-- setElements: replace the element list verbatim; neither the selection set
nor the isSelected flags are touched. -/
def setElements (els : List CanvasElement) (s : CanvasState) : CanvasState :=
  { s with elements := els }

/-! ### Clipboard (localStorage slot canvas-clipboard) -/

/-- What reading the persisted clipboard slot can yield: no entry, an entry
JSON.parse throws on, a parsed value that is not an array, or a parsed element
array. -/
inductive ClipboardData where
  | absent
  | malformed
  | nonArray
  | elems (l : List CanvasElement)
deriving DecidableEq, Repr

/-- copyToClipboard: an empty selection is an early-return; otherwise the
selected elements are serialized into the slot and the paste cascade counter
is reset to 1. -/
def copyToClipboard (s : CanvasState) (clip : ClipboardData) :
    CanvasState × ClipboardData :=
  let selected := selectedElements s
  if selected.isEmpty then (s, clip)
  else ({ s with pasteCount := 1 }, ClipboardData.elems selected)

/-- The axis-aligned bounding box minX/minY/maxX/maxY that pasteFromClipboard
folds over the stored elements.  The source seeds the folds with plus/minus
Infinity; on the nonempty lists reachable in that branch this equals folding
the tail from the head's values.  The empty case is unreachable there. -/
def clipBBox : List CanvasElement → ℚ × ℚ × ℚ × ℚ
  | [] => (0, 0, 0, 0)
  | h :: t =>
    (t.foldl (fun m el => min m el.x) h.x,
     t.foldl (fun m el => min m el.y) h.y,
     t.foldl (fun m el => max m (el.x + el.width)) (h.x + h.width),
     t.foldl (fun m el => max m (el.y + el.height)) (h.y + h.height))

/-- The elements.map of pasteFromClipboard: each stored element is cloned with
a freshly generated uuid (gen applied to its index), the uniform offset, and
isSelected true.  The index argument threads the position in the stored
list. -/
def cloneElems (gen : ℕ → String) (dx dy : ℚ) : ℕ → List CanvasElement → List CanvasElement
  | _, [] => []
  | i, el :: rest =>
    { el with id := gen i, x := el.x + dx, y := el.y + dy, isSelected := true }
      :: cloneElems gen dx dy (i + 1) rest

/-- pasteFromClipboard: early-return when the slot is absent, unparsable, not
an array, or an empty array.  Otherwise compute the delta (cursor world point
minus stored bounding-box center when a cursor position is given, else
20 * pasteCount on both axes), clone every stored element with a fresh id and
isSelected true, clear the current selection, append the clones, select
exactly them, and increment pasteCount only in the cursor-less case. -/
def pasteFromClipboard (s : CanvasState) (clip : ClipboardData)
    (cursorPosition : Option Pt) (gen : ℕ → String) : CanvasState :=
  match clip with
  | .absent => s
  | .malformed => s
  | .nonArray => s
  | .elems elements =>
    if elements.isEmpty then s
    else
      let delta :=
        match cursorPosition with
        | some c =>
          let bb := clipBBox elements
          let centerX := (bb.1 + bb.2.2.1) / 2
          let centerY := (bb.2.1 + bb.2.2.2) / 2
          let worldX := (c.x - s.pan.x) / s.zoom
          let worldY := (c.y - s.pan.y) / s.zoom
          (worldX - centerX, worldY - centerY)
        | none => ((20 : ℚ) * s.pasteCount, (20 : ℚ) * s.pasteCount)
      let newElements := cloneElems gen delta.1 delta.2 0 elements
      let s1 := clearSelection s
      let s2 := { s1 with elements := s1.elements ++ newElements,
                          selectedElementIds := newElements.map (fun el => el.id) }
      if cursorPosition.isNone then { s2 with pasteCount := s2.pasteCount + 1 } else s2

/-! ### TextSync codec (TextEditor.vue: convertSpansToHtml / parseHtmlToSpans)

convertSpansToHtml builds a plain HTML STRING: each span's text with every
newline replaced by the four characters of a br tag, wrapped in b/i/u/s tags
for its truthy flags (bold innermost, strikethrough outermost), all
concatenated with no escaping whatsoever.  parseHtmlToSpans assigns that
string to tempDiv.innerHTML — the browser re-parses it as markup — and then
walks the resulting DOM tree inheriting style flags, and finally merges
adjacent same-style runs.  Both layers are embedded: the encoder as the
literal character string it builds, and the innerHTML assignment as an
executable parser covering the markup fragment this codec emits and reads.
Because the string is unescaped, markup-significant characters inside a
span's text are re-parsed as markup rather than preserved, which is why the
roundtrip theorem below is restricted to markup-free text; a separate
example shows the text "a<b>c" coming back re-parsed. -/

/-- The element tags distinguished by parseHtmlToSpans: the four style tags,
div (newline insertion), and any other tag (plain recursion). -/
inductive HtmlTag where
  | b | i | u | s | div | other
deriving DecidableEq, Repr

/-- A DOM node of the editable surface. -/
inductive HtmlNode where
  | text (t : List Char)
  | br
  | elem (tag : HtmlTag) (children : List HtmlNode)

/-- String.prototype.split on the newline character. -/
def splitNL : List Char → List (List Char)
  | [] => [[]]
  | c :: cs =>
    match splitNL cs with
    | [] => [[]]
    | chunk :: rest =>
      if c = '\n' then [] :: chunk :: rest else (c :: chunk) :: rest

/-- String.prototype.replace(/\n/g, br-tag) as the character-level rewrite
the encoder applies to a span's text before wrapping. -/
def replaceNL : List Char → List Char
  | [] => []
  | c :: cs =>
    if c = '\n' then '<' :: 'b' :: 'r' :: '>' :: replaceNL cs
    else c :: replaceNL cs

/-- The opening-tag characters of an element. -/
def openChars : HtmlTag → List Char
  | .b => ['<', 'b', '>']
  | .i => ['<', 'i', '>']
  | .u => ['<', 'u', '>']
  | .s => ['<', 's', '>']
  | .div => ['<', 'd', 'i', 'v', '>']
  | .other => []

/-- The closing-tag characters of an element. -/
def closeChars : HtmlTag → List Char
  | .b => ['<', '/', 'b', '>']
  | .i => ['<', '/', 'i', '>']
  | .u => ['<', '/', 'u', '>']
  | .s => ['<', '/', 's', '>']
  | .div => ['<', '/', 'd', 'i', 'v', '>']
  | .other => []

/-- Wrap the markup string in a style tag when the flag is truthy
(the if-chain of the encoder reassigning html). -/
def wrapChars (flag : Option Bool) (tag : HtmlTag) (inner : List Char) : List Char :=
  if truthy flag then openChars tag ++ inner ++ closeChars tag else inner

/-- One span's markup string: the text with newlines replaced by br tags,
wrapped for bold innermost, then italic, underline, strikethrough.  No
character of the text is escaped. -/
def convertSpanToHtml (sp : TextSpan) : List Char :=
  wrapChars sp.strikethrough .s
    (wrapChars sp.underline .u
      (wrapChars sp.italic .i
        (wrapChars sp.bold .b (replaceNL sp.text))))

/-- convertSpansToHtml: the concatenation (join with the empty separator)
of every span's markup string. -/
def convertSpansToHtml (spans : List TextSpan) : List Char :=
  (spans.map convertSpanToHtml).flatten

/-- The pending text run flushed as a node list: one text node if nonempty. -/
def flushNode (buf : List Char) : List HtmlNode :=
  if buf.isEmpty then [] else [HtmlNode.text buf]

/-- Closing-tag resolution of the parser: pop the innermost open frame when
its name matches, and drop the stray close tag otherwise (as the HTML parser
ignores an end tag with no matching open element). -/
def popFrame (t : HtmlTag) (nodes : List HtmlNode)
    (stack : List (HtmlTag × List HtmlNode)) :
    List HtmlNode × List (HtmlTag × List HtmlNode) :=
  match stack with
  | [] => (nodes, [])
  | (tag, sib) :: st =>
    if tag = t then (sib ++ [HtmlNode.elem tag nodes], st)
    else (nodes, (tag, sib) :: st)

/-- Scanning mode of the markup tokenizer: plain text, inside a tag (after
an unconsumed <, accumulating the tag contents), or inside a character
entity (after an unconsumed &, accumulating the entity name). -/
inductive ScanMode where
  | text
  | tag (acc : List Char)
  | ent (acc : List Char)

/-- What a completed tag does: a void br, an element open, an element
close. -/
inductive TagAct where
  | br
  | openEl (t : HtmlTag)
  | closeEl (t : HtmlTag)

/-- Interpretation of a completed tag's contents, for the tags this codec
emits and reads.  Any other contents yield none: the parser keeps the whole
tag as literal text — a simplification of the real parser (which builds an
element for any well-formed tag), exercised by no string this codec
produces. -/
def tagAction (acc : List Char) : Option TagAct :=
  if acc = ['b', 'r'] then some TagAct.br
  else if acc = ['b'] then some (TagAct.openEl HtmlTag.b)
  else if acc = ['i'] then some (TagAct.openEl HtmlTag.i)
  else if acc = ['u'] then some (TagAct.openEl HtmlTag.u)
  else if acc = ['s'] then some (TagAct.openEl HtmlTag.s)
  else if acc = ['d', 'i', 'v'] then some (TagAct.openEl HtmlTag.div)
  else if acc = ['/', 'b'] then some (TagAct.closeEl HtmlTag.b)
  else if acc = ['/', 'i'] then some (TagAct.closeEl HtmlTag.i)
  else if acc = ['/', 'u'] then some (TagAct.closeEl HtmlTag.u)
  else if acc = ['/', 's'] then some (TagAct.closeEl HtmlTag.s)
  else if acc = ['/', 'd', 'i', 'v'] then some (TagAct.closeEl HtmlTag.div)
  else none

/-- The named character entities decoded by the model: amp, lt, gt.  An
unrecognized entity stays literal text, as in the browser. -/
def entChar (acc : List Char) : Option Char :=
  if acc = ['a', 'm', 'p'] then some '&'
  else if acc = ['l', 't'] then some '<'
  else if acc = ['g', 't'] then some '>'
  else none

/-- State of the innerHTML parse: the scanning mode, the pending text run
(consecutive literal characters and decoded entities accumulate here, so DOM
text runs are maximal), the children collected for the innermost open
element, and the stack of enclosing open elements with their earlier
siblings. -/
structure ScanState where
  mode : ScanMode
  buf : List Char
  cur : List HtmlNode
  stack : List (HtmlTag × List HtmlNode)

/-- One character of the innerHTML assignment's parse, modelled on the
markup fragment this codec emits and reads.  In text mode a < opens a tag
scan, an & opens an entity scan, and anything else joins the pending text
run.  A completed tag flushes the run as one text node and then emits a br,
pushes an open frame, or pops the innermost frame via popFrame; a completed
entity appends its character to the run; unrecognized tags and entities stay
literal text. -/
def htmlStep (st : ScanState) (c : Char) : ScanState :=
  match st with
  | ⟨ScanMode.text, buf, cur, stack⟩ =>
    if c = '<' then ⟨ScanMode.tag [], buf, cur, stack⟩
    else if c = '&' then ⟨ScanMode.ent [], buf, cur, stack⟩
    else ⟨ScanMode.text, buf ++ [c], cur, stack⟩
  | ⟨ScanMode.tag acc, buf, cur, stack⟩ =>
    if c = '>' then
      match tagAction acc with
      | some TagAct.br =>
        ⟨ScanMode.text, [], cur ++ flushNode buf ++ [HtmlNode.br], stack⟩
      | some (TagAct.openEl t) =>
        ⟨ScanMode.text, [], [], (t, cur ++ flushNode buf) :: stack⟩
      | some (TagAct.closeEl t) =>
        ⟨ScanMode.text, [], (popFrame t (cur ++ flushNode buf) stack).1,
          (popFrame t (cur ++ flushNode buf) stack).2⟩
      | none => ⟨ScanMode.text, buf ++ '<' :: acc ++ ['>'], cur, stack⟩
    else ⟨ScanMode.tag (acc ++ [c]), buf, cur, stack⟩
  | ⟨ScanMode.ent acc, buf, cur, stack⟩ =>
    if c = ';' then
      match entChar acc with
      | some ch => ⟨ScanMode.text, buf ++ [ch], cur, stack⟩
      | none => ⟨ScanMode.text, buf ++ '&' :: acc ++ [';'], cur, stack⟩
    else if c = '<' then ⟨ScanMode.tag [], buf ++ '&' :: acc, cur, stack⟩
    else if c = '&' then ⟨ScanMode.ent [], buf ++ '&' :: acc, cur, stack⟩
    else ⟨ScanMode.ent (acc ++ [c]), buf, cur, stack⟩

/-- End of input: an unterminated tag is dropped (as the HTML tokenizer does
at end of input in a tag), an unterminated entity stays literal text, the
pending run is flushed, and elements still open are closed, innermost
first. -/
def finishHtml (st : ScanState) : List HtmlNode :=
  match st with
  | ⟨ScanMode.text, buf, cur, stack⟩ =>
    stack.foldl (fun childs fr => fr.2 ++ [HtmlNode.elem fr.1 childs])
      (cur ++ flushNode buf)
  | ⟨ScanMode.tag _, buf, cur, stack⟩ =>
    stack.foldl (fun childs fr => fr.2 ++ [HtmlNode.elem fr.1 childs])
      (cur ++ flushNode buf)
  | ⟨ScanMode.ent acc, buf, cur, stack⟩ =>
    stack.foldl (fun childs fr => fr.2 ++ [HtmlNode.elem fr.1 childs])
      (cur ++ flushNode (buf ++ '&' :: acc))

/-- tempDiv.innerHTML = html: run the browser's parse of the markup string
over every character, starting in text mode with nothing pending, collected
or open. -/
def innerHTMLParse (html : List Char) : List HtmlNode :=
  finishHtml (html.foldl htmlStep ⟨ScanMode.text, [], [], []⟩)

/-- Specification device (proved against the parser, never assumed): the
node sequence the parse produces inside a style wrapper for a replaced
text — the nonempty newline-chunks as text nodes, a br between each pair. -/
def textNodesOfChunks : List (List Char) → List HtmlNode
  | [] => []
  | [c] => if c.isEmpty then [] else [HtmlNode.text c]
  | c :: cs =>
    (if c.isEmpty then ([] : List HtmlNode) else [HtmlNode.text c])
      ++ HtmlNode.br :: textNodesOfChunks cs

/-- Wrap the nodes in a style element when the flag is truthy. -/
def wrapIf (flag : Option Bool) (tag : HtmlTag) (nodes : List HtmlNode) : List HtmlNode :=
  if truthy flag then [HtmlNode.elem tag nodes] else nodes

/-- Specification device: the parse tree of one encoded span's markup.  The
actual string parse does not produce these trees verbatim — adjacent
top-level text runs of consecutive unstyled spans coalesce — so the proved
relation goes through the top-level coalescing of docTree. -/
def spanTree (sp : TextSpan) : List HtmlNode :=
  wrapIf sp.strikethrough .s
    (wrapIf sp.underline .u
      (wrapIf sp.italic .i
        (wrapIf sp.bold .b (textNodesOfChunks (splitNL sp.text)))))

/-- Specification device: every span's parse tree, concatenated. -/
def docTree (spans : List TextSpan) : List HtmlNode :=
  (spans.map spanTree).flatten

/-- The currentStyle object threaded through the traverse of
parseHtmlToSpans; a flag is only ever present with value true. -/
structure StyleCtx where
  bold : Bool := false
  italic : Bool := false
  underline : Bool := false
  strikethrough : Bool := false
deriving DecidableEq, Repr

/-- Spread a currentStyle into a span: present flags become explicit true,
missing flags stay absent. -/
def spanOfCtx (t : List Char) (ctx : StyleCtx) : TextSpan :=
  { text := t
    bold := if ctx.bold then some true else none
    italic := if ctx.italic then some true else none
    underline := if ctx.underline then some true else none
    strikethrough := if ctx.strikethrough then some true else none }

/-- The tagName checks that extend the inherited style. -/
def updateCtx (tag : HtmlTag) (ctx : StyleCtx) : StyleCtx :=
  match tag with
  | .b => { ctx with bold := true }
  | .i => { ctx with italic := true }
  | .u => { ctx with underline := true }
  | .s => { ctx with strikethrough := true }
  | _ => ctx

mutual

/-- The traverse of parseHtmlToSpans: text nodes push a span unless empty;
br pushes a newline span; a div pushes a newline first when spans were already
collected; b/i/u/s extend the style for their children. -/
def traverseNode (ctx : StyleCtx) (acc : List TextSpan) : HtmlNode → List TextSpan
  | .text t => if t.isEmpty then acc else acc ++ [spanOfCtx t ctx]
  | .br => acc ++ [spanOfCtx ['\n'] ctx]
  | .elem tag children =>
    let acc1 :=
      if tag = HtmlTag.div ∧ acc ≠ [] then acc ++ [spanOfCtx ['\n'] ctx] else acc
    traverseList (updateCtx tag ctx) acc1 children

/-- childNodes.forEach(child => traverse(child, newStyle)). -/
def traverseList (ctx : StyleCtx) (acc : List TextSpan) : List HtmlNode → List TextSpan
  | [] => acc
  | n :: ns => traverseList ctx (traverseNode ctx acc n) ns

end

/-- The strict-equality comparison of all four flags used by the merge loop. -/
def sameFlags (a b : TextSpan) : Bool :=
  a.bold == b.bold && a.italic == b.italic
    && a.underline == b.underline && a.strikethrough == b.strikethrough

/-- One iteration of the merge loop: append the span, or extend the last
collected span when its flag set coincides. -/
def mergeStep (merged : List TextSpan) (span : TextSpan) : List TextSpan :=
  match merged.getLast? with
  | some last =>
    if sameFlags last span then
      merged.dropLast ++ [{ last with text := last.text ++ span.text }]
    else merged ++ [span]
  | none => merged ++ [span]

/-- Merge adjacent spans with the same style, as the final loop of
parseHtmlToSpans does. -/
def mergeSpans (spans : List TextSpan) : List TextSpan :=
  spans.foldl mergeStep []

/-- parseHtmlToSpans: assign the markup string to the temp div's innerHTML
(the browser parse), walk the resulting node tree from an empty style (the
wrapping div itself contributes nothing while no span has been collected),
then merge adjacent same-style runs. -/
def parseHtmlToSpans (html : List Char) : List TextSpan :=
  mergeSpans (traverseList {} [] (innerHTMLParse html))

/-! ### Interaction controller (CanvasBoard.vue) -/

/-- The PixiJS stage as synchronized with the store: position = pan and both
scale axes = zoom. -/
def stageOf (s : CanvasState) : Stage :=
  { x := s.pan.x, y := s.pan.y, scaleX := s.zoom, scaleY := s.zoom }

/-- An axis-aligned rectangle (x, y, width, height). -/
structure Bounds where
  x : ℚ
  y : ℚ
  width : ℚ
  height : ℚ
deriving DecidableEq, Repr

/-- The world-space marquee rectangle drawn between two world points. -/
def marqueeRect (worldStart worldCurrent : Pt) : Bounds :=
  { x := min worldStart.x worldCurrent.x
    y := min worldStart.y worldCurrent.y
    width := |worldCurrent.x - worldStart.x|
    height := |worldCurrent.y - worldStart.y| }

/-- The axis-aligned intersection test of the marquee move handler. -/
def rectIntersects (el : CanvasElement) (r : Bounds) : Bool :=
  !(decide (el.x + el.width < r.x) || decide (el.x > r.x + r.width)
    || decide (el.y + el.height < r.y) || decide (el.y > r.y + r.height))

/-- The marquee branch of handlePointerMove: recompute the temporary
selection (a JS Set filled in element order) from the rectangle between the
press point and the current point, both converted to world coordinates; the
store is not mutated, so it is returned unchanged alongside the new set. -/
def marqueeMoveStep (s : CanvasState) (startScreen curScreen : Pt) :
    CanvasState × List String :=
  let ws := screenToWorld startScreen (stageOf s)
  let wc := screenToWorld curScreen (stageOf s)
  let r := marqueeRect ws wc
  (s, jsSetOfList ((s.elements.filter (fun el => rectIntersects el r)).map
        (fun el => el.id)))

/-- The marquee branch of handlePointerUp: below the squared-distance
threshold 25 the gesture counts as a background click and clears the
selection; otherwise the temporary set is committed. -/
def marqueeRelease (s : CanvasState) (temp : List String)
    (startScreen upScreen : Pt) : CanvasState :=
  let dx := upScreen.x - startScreen.x
  let dy := upScreen.y - startScreen.y
  let distSq := dx * dx + dy * dy
  if distSq < 25 then clearSelection s else setSelectedElements temp s

/-- JS String.prototype.trim on a character list. -/
def jsTrim (l : List Char) : List Char :=
  ((l.dropWhile Char.isWhitespace).reverse.dropWhile Char.isWhitespace).reverse

/-- The isEmpty test of handleTextUpdate: every span's text trims to the
empty string. -/
def isBlankContent (content : List TextSpan) : Bool :=
  content.all (fun span => (jsTrim span.text).isEmpty)

/-- handleTextUpdate (the blur commit of a text edit session): with an active
editing id, delete the element when the decoded content is blank, otherwise
write the new content; in both cases clear the selection. -/
def handleTextUpdate (content : List TextSpan) (editingElementId : Option String)
    (s : CanvasState) : CanvasState :=
  match editingElementId with
  | none => s
  | some id =>
    let s1 :=
      if isBlankContent content then removeElement id s
      else updateTextElement id { content := some content } s
    clearSelection s1

/-! ### Bounding-box resize (Transformer document of FloatingToolbar.vue) -/

/-- selectionBoundingBox getter: none without a selection; otherwise min/max
over the selected elements' boxes (the source's Infinity-seeded folds equal
head-seeded folds on the nonempty selection), with width and height clamped
to be nonnegative. -/
def selectionBoundingBox (s : CanvasState) : Option Bounds :=
  if s.selectedElementIds.isEmpty then none
  else
    match s.elements.filter (fun el => s.selectedElementIds.contains el.id) with
    | [] => none
    | h :: t =>
      let minX := t.foldl (fun m el => min m el.x) h.x
      let minY := t.foldl (fun m el => min m el.y) h.y
      let maxX := t.foldl (fun m el => max m (el.x + el.width)) (h.x + h.width)
      let maxY := t.foldl (fun m el => max m (el.y + el.height)) (h.y + h.height)
      some { x := minX, y := minY,
             width := max 0 (maxX - minX), height := max 0 (maxY - minY) }

/-- isResizable: resizing is offered only when no selected element is a text
element. -/
def isResizable (s : CanvasState) : Bool :=
  !((selectedElements s).any (fun el => el.isText))

/-- The eight resize handles. -/
inductive ResizeHandle where
  | se | sw | ne | nw | e | s | w | n
deriving DecidableEq, Repr

/-- The switch of handleResizeMove computing the new bounding box from the
handle and the world-space pointer delta, with both dimensions floored at 1
and the opposite side held fixed. -/
def computeNewBounds (handle : ResizeHandle) (sb : Bounds) (dx dy : ℚ) : Bounds :=
  match handle with
  | .se => { sb with width := max 1 (sb.width + dx), height := max 1 (sb.height + dy) }
  | .sw =>
    let w := max 1 (sb.width - dx)
    { sb with width := w, x := sb.x + (sb.width - w), height := max 1 (sb.height + dy) }
  | .ne =>
    let h := max 1 (sb.height - dy)
    { sb with width := max 1 (sb.width + dx), height := h, y := sb.y + (sb.height - h) }
  | .nw =>
    let w := max 1 (sb.width - dx)
    let h := max 1 (sb.height - dy)
    { sb with width := w, x := sb.x + (sb.width - w),
              height := h, y := sb.y + (sb.height - h) }
  | .e => { sb with width := max 1 (sb.width + dx) }
  | .s => { sb with height := max 1 (sb.height + dy) }
  | .w =>
    let w := max 1 (sb.width - dx)
    { sb with width := w, x := sb.x + (sb.width - w) }
  | .n =>
    let h := max 1 (sb.height - dy)
    { sb with height := h, y := sb.y + (sb.height - h) }

/-- The per-element update issued by handleResizeMove: position rescaled
relative to the box origin, size multiplied by the scale factors — for every
snapshotted element, with no exemption for any variant. -/
def resizedUpdates (sb nb : Bounds) (st : Bounds) : TransformUpdates :=
  let scaleX := nb.width / sb.width
  let scaleY := nb.height / sb.height
  { x := some (nb.x + (st.x - sb.x) * scaleX)
    y := some (nb.y + (st.y - sb.y) * scaleY)
    width := some (st.width * scaleX)
    height := some (st.height * scaleY) }

/-- handleResizeMove: divide the pointer delta by the zoom, compute the new
bounds for the active handle, and issue updateElementTransform for every
snapshot entry. -/
def handleResizeMove (s : CanvasState) (startStates : List (String × Bounds))
    (startBounds : Bounds) (handle : ResizeHandle) (dxScreen dyScreen : ℚ) :
    CanvasState :=
  let dx := dxScreen / s.zoom
  let dy := dyScreen / s.zoom
  let nb := computeNewBounds handle startBounds dx dy
  startStates.foldl
    (fun st p => updateElementTransform p.1 (resizedUpdates startBounds nb p.2) st) s

/-- startResize: refuse when resizing is disabled or no bounding box exists;
otherwise snapshot the selection bounding box and the selected elements'
boxes. -/
def startResize (s : CanvasState) : Option (Bounds × List (String × Bounds)) :=
  if !(isResizable s) then none
  else
    match selectionBoundingBox s with
    | none => none
    | some b =>
      some (b, (selectedElements s).map
        (fun el => (el.id, (⟨el.x, el.y, el.width, el.height⟩ : Bounds))))

/-! ### The store mutations as one inductive, and the selection invariant -/

/-- The ElementStore mutations named by the specification's consistency
invariant, with the externally supplied data (fresh uuids, clipboard slot
content, cursor position) as constructor arguments. -/
inductive StoreMutation where
  | addElement (e : CanvasElement) (newId : String)
  | removeElement (id : String)
  | deleteSelectedElements
  | setSelectedElements (ids : List String)
  | addToSelection (ids : List String)
  | removeFromSelection (ids : List String)
  | clearSelection
  | updateElementTransform (id : String) (u : TransformUpdates)
  | updateTextElement (id : String) (u : TextUpdates)
  | updateElementsPositions (positions : List PosUpdate)
  | setElements (els : List CanvasElement)
  | copyToClipboard (clip : ClipboardData)
  | pasteFromClipboard (clip : ClipboardData) (cursor : Option Pt) (gen : ℕ → String)
  | toggleTextFormatting (id : String) (fmt : TextFormat)

/-- Dispatch a mutation to its store action (for copyToClipboard, the store
component of its effect). -/
def applyMutation (m : StoreMutation) (s : CanvasState) : CanvasState :=
  match m with
  | .addElement e newId => addElement e newId s
  | .removeElement id => removeElement id s
  | .deleteSelectedElements => deleteSelectedElements s
  | .setSelectedElements ids => setSelectedElements ids s
  | .addToSelection ids => addToSelection ids s
  | .removeFromSelection ids => removeFromSelection ids s
  | .clearSelection => clearSelection s
  | .updateElementTransform id u => updateElementTransform id u s
  | .updateTextElement id u => updateTextElement id u s
  | .updateElementsPositions positions => updateElementsPositions positions s
  | .setElements els => setElements els s
  | .copyToClipboard clip => (copyToClipboard s clip).1
  | .pasteFromClipboard clip cursor gen => pasteFromClipboard s clip cursor gen
  | .toggleTextFormatting id fmt => toggleTextFormatting id fmt s

/-- The dual-view consistency invariant: every element's isSelected flag
equals its membership in the selected-id set. -/
def storeInv (s : CanvasState) : Prop :=
  ∀ e ∈ s.elements, e.isSelected = s.selectedElementIds.contains e.id

instance : DecidablePred storeInv := fun s =>
  inferInstanceAs (Decidable (∀ e ∈ s.elements, _))

/-- Side conditions under which a mutation maintains the consistency
invariant: generated uuids are fresh, partial updates do not write id or
isSelected, and a verbatim element-list replacement is already consistent
with the current selection. -/
def mutOK (m : StoreMutation) (s : CanvasState) : Prop :=
  match m with
  | .addElement _ newId => s.selectedElementIds.contains newId = false
  | .updateElementTransform _ u => u.id = none ∧ u.isSelected = none
  | .updateTextElement _ u => u.id = none ∧ u.isSelected = none
  | .setElements els => ∀ e ∈ els, e.isSelected = s.selectedElementIds.contains e.id
  | .pasteFromClipboard clip _ gen =>
    match clip with
    | .elems l => ∀ e ∈ s.elements, ∀ i < l.length, gen i ≠ e.id
    | _ => True
  | _ => True

/-- Clearing the isSelected flag, as setSelectedElements with an empty
selection does on every element. -/
def deselect (el : CanvasElement) : CanvasElement :=
  { el with isSelected := false }

/-! ### Shared helper lemmas -/

theorem mem_foldl_jsSetAdd (l acc : List String) (x : String) :
    x ∈ l.foldl jsSetAdd acc ↔ x ∈ acc ∨ x ∈ l := by
  induction l generalizing acc with
  | nil => simp
  | cons a t ih =>
    have hadd : ∀ y : String, y ∈ jsSetAdd acc a ↔ y ∈ acc ∨ y = a := by
      intro y
      unfold jsSetAdd
      split
      · rename_i hmem
        constructor
        · exact fun h => Or.inl h
        · rintro (h | rfl)
          · exact h
          · exact hmem
      · simp
    simp only [List.foldl_cons, ih, hadd, List.mem_cons]
    tauto

theorem mem_jsSetOfList (l : List String) (x : String) :
    x ∈ jsSetOfList l ↔ x ∈ l := by
  unfold jsSetOfList
  rw [mem_foldl_jsSetAdd]
  simp

/-! ### C9 — the coordinate maps are mutual inverses -/

/-- C9: for every zoom in the clamp range (hence nonzero) on both stage axes,
every pan offset and every point, screenToWorld and worldToScreen are exact
mutual inverses over exact arithmetic. -/
theorem C9_coordinate_roundtrip (stage : Stage) (p : Pt)
    (hx1 : (1 : ℚ)/10 ≤ stage.scaleX) (hx2 : stage.scaleX ≤ 5)
    (hy1 : (1 : ℚ)/10 ≤ stage.scaleY) (hy2 : stage.scaleY ≤ 5) :
    worldToScreen (screenToWorld p stage) stage = p ∧
    screenToWorld (worldToScreen p stage) stage = p := by
  have hx : stage.scaleX ≠ 0 := ne_of_gt (lt_of_lt_of_le (by norm_num) hx1)
  have hy : stage.scaleY ≠ 0 := ne_of_gt (lt_of_lt_of_le (by norm_num) hy1)
  cases p with
  | mk px py =>
    constructor
    · show Pt.mk _ _ = Pt.mk _ _
      simp only [worldToScreen, screenToWorld, Pt.mk.injEq]
      constructor <;> field_simp
    · show Pt.mk _ _ = Pt.mk _ _
      simp only [worldToScreen, screenToWorld, Pt.mk.injEq]
      constructor <;> field_simp

theorem C9_coordinate_roundtrip_witness :
    worldToScreen (screenToWorld ⟨7, -3⟩ ⟨11, -2, 2, 1/2⟩) ⟨11, -2, 2, 1/2⟩ = ⟨7, -3⟩ ∧
    screenToWorld (worldToScreen ⟨7, -3⟩ ⟨11, -2, 2, 1/2⟩) ⟨11, -2, 2, 1/2⟩ = ⟨7, -3⟩ :=
  C9_coordinate_roundtrip ⟨11, -2, 2, 1/2⟩ ⟨7, -3⟩ (by norm_num) (by norm_num)
    (by norm_num) (by norm_num)

/-! ### C10 — pasteFromClipboard error branches are no-ops -/

/-- C10: when the clipboard slot is absent, unparsable, parses to a non-array
or to an empty array, pasteFromClipboard returns the state unchanged — in
particular elements, selection, isSelected flags and pasteCount are all
untouched. -/
theorem C10_paste_error_noop (s : CanvasState) (cursor : Option Pt)
    (gen : ℕ → String) :
    pasteFromClipboard s ClipboardData.absent cursor gen = s ∧
    pasteFromClipboard s ClipboardData.malformed cursor gen = s ∧
    pasteFromClipboard s ClipboardData.nonArray cursor gen = s ∧
    pasteFromClipboard s (ClipboardData.elems []) cursor gen = s :=
  ⟨rfl, rfl, rfl, rfl⟩

/-! ### C5 — marquee selection -/

/-- C5: during a marquee drag every move recomputes the temporary selection
as exactly the ids of elements whose bounding box intersects the world-space
marquee rectangle, without touching the committed selection; on release a
squared screen distance below 25 clears the committed selection, and
otherwise the temporary set becomes the committed selection (with flags
resynchronized). -/
theorem C5_marquee_selection (s : CanvasState) (temp : List String)
    (startScreen curScreen upScreen : Pt) (id : String) :
    ((marqueeMoveStep s startScreen curScreen).1 = s) ∧
    (id ∈ (marqueeMoveStep s startScreen curScreen).2 ↔
      ∃ el ∈ s.elements, el.id = id ∧
        rectIntersects el (marqueeRect (screenToWorld startScreen (stageOf s))
          (screenToWorld curScreen (stageOf s))) = true) ∧
    ((upScreen.x - startScreen.x) * (upScreen.x - startScreen.x)
        + (upScreen.y - startScreen.y) * (upScreen.y - startScreen.y) < 25 →
      (marqueeRelease s temp startScreen upScreen).selectedElementIds = [] ∧
      ∀ e ∈ (marqueeRelease s temp startScreen upScreen).elements,
        e.isSelected = false) ∧
    (¬ ((upScreen.x - startScreen.x) * (upScreen.x - startScreen.x)
        + (upScreen.y - startScreen.y) * (upScreen.y - startScreen.y) < 25) →
      (marqueeRelease s temp startScreen upScreen).selectedElementIds = temp ∧
      ∀ e ∈ (marqueeRelease s temp startScreen upScreen).elements,
        e.isSelected = temp.contains e.id) := by
  refine ⟨rfl, ?_, ?_, ?_⟩
  · simp only [marqueeMoveStep, mem_jsSetOfList, List.mem_map, List.mem_filter]
    constructor
    · rintro ⟨el, ⟨hmem, hint⟩, rfl⟩
      exact ⟨el, hmem, rfl, hint⟩
    · rintro ⟨el, hmem, rfl, hint⟩
      exact ⟨el, ⟨hmem, hint⟩, rfl⟩
  · intro h
    unfold marqueeRelease
    rw [if_pos h]
    refine ⟨rfl, ?_⟩
    intro e he
    simp only [clearSelection, setSelectedElements, List.mem_map] at he
    obtain ⟨el, _, rfl⟩ := he
    rfl
  · intro h
    unfold marqueeRelease
    rw [if_neg h]
    refine ⟨rfl, ?_⟩
    intro e he
    simp only [setSelectedElements, List.mem_map] at he
    obtain ⟨el, _, rfl⟩ := he
    rfl

/-- An empty store state used by several witnesses. -/
def emptyState : CanvasState :=
  { elements := []
    selectedElementIds := []
    zoom := 1
    pan := ⟨0, 0⟩
    activeTool := Tool.select
    pasteCount := 1 }

theorem C5_marquee_selection_witness :
    (marqueeMoveStep emptyState ⟨0, 0⟩ ⟨10, 10⟩).1 = emptyState ∧
    (marqueeRelease emptyState ["a"] ⟨0, 0⟩ ⟨1, 1⟩).selectedElementIds = [] := by
  have h := C5_marquee_selection emptyState ["a"] ⟨0, 0⟩ ⟨10, 10⟩ ⟨1, 1⟩ "a"
  exact ⟨h.1, (h.2.2.1 (by norm_num)).1⟩

/-! ### More helper lemmas: updateFirst, clearSelection, sample elements -/

theorem mem_updateFirst {α : Type} (p : α → Bool) (f : α → α) (l : List α) (x : α)
    (h : x ∈ updateFirst p f l) : x ∈ l ∨ ∃ y ∈ l, x = f y := by
  induction l with
  | nil => simp [updateFirst] at h
  | cons a t ih =>
    unfold updateFirst at h
    by_cases hp : p a
    · rw [if_pos hp] at h
      rcases List.mem_cons.mp h with h1 | h1
      · exact Or.inr ⟨a, List.mem_cons_self a t, h1⟩
      · exact Or.inl (List.mem_cons_of_mem a h1)
    · rw [if_neg hp] at h
      rcases List.mem_cons.mp h with h1 | h1
      · exact Or.inl (h1 ▸ List.mem_cons_self a t)
      · rcases ih h1 with h2 | ⟨y, hy, h3⟩
        · exact Or.inl (List.mem_cons_of_mem a h2)
        · exact Or.inr ⟨y, List.mem_cons_of_mem a hy, h3⟩

theorem updateFirst_eq_map_by_id (a : String) (f : CanvasElement → CanvasElement)
    (l : List CanvasElement) (h : (l.map (fun el => el.id)).Nodup) :
    updateFirst (fun el => el.id == a) f l
      = l.map (fun el => if el.id == a then f el else el) := by
  induction l with
  | nil => rfl
  | cons x t ih =>
    rw [List.map_cons, List.nodup_cons] at h
    unfold updateFirst
    by_cases hx : x.id == a
    · rw [if_pos hx, List.map_cons, if_pos hx]
      have ha : x.id = a := by simpa using hx
      have ht : t.map (fun el => if el.id == a then f el else el)
          = t.map (fun el => el) := by
        apply List.map_congr_left
        intro el hel
        have : el.id ≠ a := by
          intro hcontra
          apply h.1
          rw [ha, ← hcontra]
          exact List.mem_map_of_mem (fun el => el.id) hel
        simp [this]
      rw [ht, List.map_id']
    · rw [if_neg hx, List.map_cons, if_neg hx, ih h.2]

theorem clearSelection_elements (s : CanvasState) :
    (clearSelection s).elements = s.elements.map deselect := by
  unfold clearSelection setSelectedElements deselect
  simp

theorem clearSelection_selectedElementIds (s : CanvasState) :
    (clearSelection s).selectedElementIds = [] := rfl

theorem applyTextUpdates_id (u : TextUpdates) (el : CanvasElement)
    (h : u.id = none) : (applyTextUpdates u el).id = el.id := by
  unfold applyTextUpdates
  cases el.payload <;> simp [h]

/-- A rectangle element used by concrete witnesses and counterexamples. -/
def sampleRect (id : String) (x y w h : ℚ) (sel : Bool) : CanvasElement :=
  { id := id, x := x, y := y, width := w, height := h, rot := 0, isSelected := sel,
    payload := ElementPayload.rectangle "#0000FF" "#000000" 2 1 }

/-- A text element used by concrete witnesses and counterexamples. -/
def sampleText (id : String) (x y w h : ℚ) (sel : Bool)
    (content : List TextSpan) : CanvasElement :=
  { id := id, x := x, y := y, width := w, height := h, rot := 0, isSelected := sel,
    payload := ElementPayload.text content "Arial" 24 "#000000" "transparent" }

/-- Invariant (b) of the data model: selected ids name existing elements. -/
def selectionSubset (s : CanvasState) : Prop :=
  ∀ id ∈ s.selectedElementIds, id ∈ s.elements.map (fun el => el.id)

instance : DecidablePred selectionSubset := fun s =>
  inferInstanceAs (Decidable (∀ id ∈ s.selectedElementIds, _))

/-! ### C2 — removeElement / deleteSelectedElements and the subset invariant -/

/-- A state with one selected rectangle, on which removeElement leaves the
removed id in the selection set. -/
def c2State : CanvasState :=
  { elements := [sampleRect "a" 0 0 10 10 true]
    selectedElementIds := ["a"]
    zoom := 1
    pan := ⟨0, 0⟩
    activeTool := Tool.select
    pasteCount := 1 }

/-- C2 counterexample: from a consistent state whose selection is {"a"},
removeElement "a" removes the element but keeps "a" in the selection set, so
the selection is no longer a subset of the existing ids — removeElement does
not prune the selection atomically as claimed. -/
theorem C2_counterexample :
    selectionSubset c2State ∧ storeInv c2State ∧
    (removeElement "a" c2State).selectedElementIds = ["a"] ∧
    ¬ selectionSubset (removeElement "a" c2State) := by
  refine ⟨by decide, by decide, rfl, ?_⟩
  intro h
  have := h "a" (by decide)
  simp [removeElement, c2State, sampleRect] at this

/-- C2 amended: removeElement removes exactly the elements with the given id
and is a no-op when the id is absent, but leaves the selection set untouched
(no pruning); deleteSelectedElements removes the selected elements and clears
the selection in one operation and is a no-op on an empty selection, so after
it the selected-id set is a subset of the existing ids. -/
theorem C2_remove_delete (s : CanvasState) (id : String) :
    ((removeElement id s).elements = s.elements.filter (fun el => el.id ≠ id)) ∧
    ((removeElement id s).selectedElementIds = s.selectedElementIds) ∧
    ((∀ el ∈ s.elements, el.id ≠ id) → removeElement id s = s) ∧
    (s.selectedElementIds = [] → deleteSelectedElements s = s) ∧
    (s.selectedElementIds ≠ [] →
      (deleteSelectedElements s).elements
        = (s.elements.filter
            (fun el => ¬ s.selectedElementIds.contains el.id)).map deselect ∧
      (deleteSelectedElements s).selectedElementIds = []) ∧
    selectionSubset (deleteSelectedElements s) := by
  refine ⟨rfl, rfl, ?_, ?_, ?_, ?_⟩
  · intro h
    have : s.elements.filter (fun el => el.id ≠ id) = s.elements :=
      List.filter_eq_self.mpr (fun el hel => by simpa using h el hel)
    unfold removeElement
    rw [this]
  · intro h
    unfold deleteSelectedElements
    rw [h]
    rfl
  · intro h
    unfold deleteSelectedElements
    rw [if_neg (by simpa using h)]
    exact ⟨clearSelection_elements _, rfl⟩
  · intro i hi
    unfold deleteSelectedElements at hi
    by_cases h : s.selectedElementIds.isEmpty
    · rw [if_pos h] at hi
      have he : s.selectedElementIds = [] := by simpa using h
      rw [he] at hi
      simp at hi
    · rw [if_neg h] at hi
      rw [clearSelection_selectedElementIds] at hi
      simp at hi

theorem C2_remove_delete_witness :
    (removeElement "b" c2State = c2State) ∧
    selectionSubset (deleteSelectedElements c2State) := by
  have h := C2_remove_delete c2State "b"
  exact ⟨h.2.2.1 (by decide), h.2.2.2.2.2⟩

/-! ### C8 — text edit session end -/

theorem handleTextUpdate_eq (content : List TextSpan) (id : String)
    (s : CanvasState) :
    handleTextUpdate content (some id) s
      = clearSelection (if isBlankContent content then removeElement id s
          else updateTextElement id { content := some content } s) := rfl

theorem handleTextUpdate_elements_blank (content : List TextSpan) (id : String)
    (s : CanvasState) (hb : isBlankContent content = true) :
    (handleTextUpdate content (some id) s).elements
      = (s.elements.filter (fun el => el.id ≠ id)).map deselect := by
  rw [handleTextUpdate_eq, hb]
  simp [clearSelection_elements, removeElement]

theorem handleTextUpdate_elements_nonblank (content : List TextSpan) (id : String)
    (s : CanvasState) (hb : isBlankContent content = false) :
    (handleTextUpdate content (some id) s).elements
      = ((updateTextElement id { content := some content } s).elements).map deselect := by
  rw [handleTextUpdate_eq, hb]
  simp [clearSelection_elements]

/-- C8: on blur with an active editing id, blank decoded content deletes the
text element from the store, non-blank content rewrites exactly the content
field of that element (geometry untouched here, to be recomputed by layout),
and in both cases the selection ends up cleared with all flags down. -/
theorem C8_text_session_end (content : List TextSpan) (id : String)
    (s : CanvasState) (hn : (s.elements.map (fun el => el.id)).Nodup) :
    ((handleTextUpdate content (some id) s).selectedElementIds = []) ∧
    (∀ e ∈ (handleTextUpdate content (some id) s).elements,
       e.isSelected = false) ∧
    (isBlankContent content = true →
       ∀ e ∈ (handleTextUpdate content (some id) s).elements, e.id ≠ id) ∧
    (isBlankContent content = false →
       ((handleTextUpdate content (some id) s).elements.map (fun el => el.id)
          = s.elements.map (fun el => el.id)) ∧
       (∀ e ∈ s.elements, e.id = id → e.isText = true →
          ∃ e2 ∈ (handleTextUpdate content (some id) s).elements,
            e2.id = id ∧ e2.textContent? = some content ∧ e2.x = e.x ∧
            e2.y = e.y ∧ e2.width = e.width ∧ e2.height = e.height)) := by
  refine ⟨by rw [handleTextUpdate_eq]; rfl, ?_, ?_, ?_⟩
  · intro e he
    rw [handleTextUpdate_eq, clearSelection_elements] at he
    rcases List.mem_map.mp he with ⟨el, _, rfl⟩
    rfl
  · intro hb e he
    rw [handleTextUpdate_elements_blank content id s hb] at he
    rcases List.mem_map.mp he with ⟨el, hel, rfl⟩
    rcases List.mem_filter.mp hel with ⟨_, hel2⟩
    simpa [deselect] using of_decide_eq_true hel2
  · intro hb
    have hid : ∀ el, (applyTextUpdates { content := some content } el).id = el.id :=
      fun el => applyTextUpdates_id _ el rfl
    have hform : (updateTextElement id { content := some content } s).elements
        = s.elements.map
            (fun el => if el.id == id
              then applyTextUpdates { content := some content } el else el) :=
      updateFirst_eq_map_by_id id _ s.elements hn
    rw [handleTextUpdate_elements_nonblank content id s hb, hform]
    constructor
    · rw [List.map_map, List.map_map]
      apply List.map_congr_left
      intro el _
      by_cases h : el.id = id
      · simp [h, deselect, Function.comp]
        rw [hid el]
        exact h
      · simp [deselect, Function.comp, h]
    · intro e he heid htext
      rw [List.map_map]
      rcases e with ⟨eid, ex, ey, ew, eh, er, esel, epay⟩
      cases epay with
      | text c ff fs col bg =>
        refine ⟨deselect (applyTextUpdates { content := some content }
          ⟨eid, ex, ey, ew, eh, er, esel, ElementPayload.text c ff fs col bg⟩),
          ?_, heid, rfl, rfl, rfl, rfl, rfl⟩
        apply List.mem_map.mpr
        refine ⟨_, he, ?_⟩
        have hcond : (eid == id) = true := by simp [show eid = id from heid]
        simp [Function.comp, hcond]
      | rectangle fc sc sw op => simp [CanvasElement.isText] at htext
      | circle fc sc sw op => simp [CanvasElement.isText] at htext
      | roundedRectangle fc sc sw op rr => simp [CanvasElement.isText] at htext
      | triangle fc sc sw op => simp [CanvasElement.isText] at htext
      | image isrc ig ib ibr => simp [CanvasElement.isText] at htext

/-- A store with one selected text element, for the C8 witness. -/
def c8State : CanvasState :=
  { elements := [sampleText "t" 0 0 30 10 true [{ text := ['h'] }]]
    selectedElementIds := ["t"]
    zoom := 1
    pan := ⟨0, 0⟩
    activeTool := Tool.select
    pasteCount := 1 }

theorem C8_text_session_end_witness :
    (handleTextUpdate [] (some "t") c8State).selectedElementIds = [] ∧
    (∀ e ∈ (handleTextUpdate [] (some "t") c8State).elements, e.id ≠ "t") := by
  have h := C8_text_session_end [] "t" c8State (by decide)
  exact ⟨h.1, h.2.2.1 (by decide)⟩

/-! ### Paste characterizations shared by C6 and C7 -/

theorem clearSelection_pasteCount (s : CanvasState) :
    (clearSelection s).pasteCount = s.pasteCount := rfl

theorem copyToClipboard_nonempty (s : CanvasState) (clip : ClipboardData)
    (h : (selectedElements s).isEmpty = false) :
    copyToClipboard s clip
      = ({ s with pasteCount := 1 }, ClipboardData.elems (selectedElements s)) := by
  unfold copyToClipboard
  simp [h]

theorem paste_nocursor_eq (s : CanvasState) (l : List CanvasElement)
    (gen : ℕ → String) (hne : l.isEmpty = false) :
    pasteFromClipboard s (ClipboardData.elems l) none gen
      = { s with
            elements := s.elements.map deselect
              ++ cloneElems gen (20 * s.pasteCount) (20 * s.pasteCount) 0 l
            selectedElementIds :=
              (cloneElems gen (20 * s.pasteCount) (20 * s.pasteCount) 0 l).map
                (fun el => el.id)
            pasteCount := s.pasteCount + 1 } := by
  unfold pasteFromClipboard
  simp [hne, clearSelection, setSelectedElements, deselect]

theorem paste_cursor_eq (s : CanvasState) (l : List CanvasElement) (c : Pt)
    (gen : ℕ → String) (hne : l.isEmpty = false) :
    pasteFromClipboard s (ClipboardData.elems l) (some c) gen
      = { s with
            elements := s.elements.map deselect
              ++ cloneElems gen
                  ((c.x - s.pan.x) / s.zoom
                    - ((clipBBox l).1 + (clipBBox l).2.2.1) / 2)
                  ((c.y - s.pan.y) / s.zoom
                    - ((clipBBox l).2.1 + (clipBBox l).2.2.2) / 2)
                  0 l
            selectedElementIds :=
              (cloneElems gen
                  ((c.x - s.pan.x) / s.zoom
                    - ((clipBBox l).1 + (clipBBox l).2.2.1) / 2)
                  ((c.y - s.pan.y) / s.zoom
                    - ((clipBBox l).2.1 + (clipBBox l).2.2.2) / 2)
                  0 l).map (fun el => el.id) } := by
  unfold pasteFromClipboard
  simp [hne, clearSelection, setSelectedElements, deselect]

theorem deselect_deselect (el : CanvasElement) :
    deselect (deselect el) = deselect el := rfl

theorem deselect_comp : deselect ∘ deselect = deselect :=
  funext fun _ => rfl

theorem deselect_map_idem (l : List CanvasElement) :
    (l.map deselect).map deselect = l.map deselect := by
  rw [List.map_map]
  apply List.map_congr_left
  intro x _
  rfl

theorem cloneElems_map_id (gen : ℕ → String) (dx dy : ℚ) (n : ℕ)
    (l : List CanvasElement) :
    (cloneElems gen dx dy n l).map (fun el => el.id)
      = (List.range' n l.length).map gen := by
  induction l generalizing n with
  | nil => rfl
  | cons a t ih =>
    show gen n :: (cloneElems gen dx dy (n + 1) t).map (fun el => el.id) = _
    rw [ih]
    rfl

/-! ### C6 — cascading cursor-less paste -/

/-- The copy-then-three-keyboard-pastes scenario: the states after the copy
and after each of the three cursor-less pastes of the same clipboard slot. -/
def pasteCascade (s : CanvasState) (clip : ClipboardData)
    (gen1 gen2 gen3 : ℕ → String) :
    CanvasState × CanvasState × CanvasState × CanvasState :=
  let s0 := (copyToClipboard s clip).1
  let cl := (copyToClipboard s clip).2
  let s1 := pasteFromClipboard s0 cl none gen1
  let s2 := pasteFromClipboard s1 cl none gen2
  let s3 := pasteFromClipboard s2 cl none gen3
  (s0, s1, s2, s3)

/-- C6: with a nonempty selection, copyToClipboard resets pasteCount to 1;
every cursor-less paste of a stored list offsets all clones uniformly by
20 * pasteCount on both axes and then increments the counter; consequently
three cursor-less pastes in a row after one copy produce clones at offsets
(20, 20), (40, 40) and (60, 60) from the stored originals, with counters
2, 3, 4 after the successive pastes. -/
theorem C6_cascading_paste (s : CanvasState) (clip : ClipboardData)
    (gen1 gen2 gen3 : ℕ → String) (hne : selectedElements s ≠ []) :
    ((copyToClipboard s clip).1.pasteCount = 1) ∧
    ((copyToClipboard s clip).2 = ClipboardData.elems (selectedElements s)) ∧
    (∀ (t : CanvasState) (gen : ℕ → String) (l : List CanvasElement), l ≠ [] →
       pasteFromClipboard t (ClipboardData.elems l) none gen
         = { t with
               elements := t.elements.map deselect
                 ++ cloneElems gen (20 * t.pasteCount) (20 * t.pasteCount) 0 l
               selectedElementIds :=
                 (cloneElems gen (20 * t.pasteCount) (20 * t.pasteCount) 0 l).map
                   (fun el => el.id)
               pasteCount := t.pasteCount + 1 }) ∧
    ((pasteCascade s clip gen1 gen2 gen3).2.1.pasteCount = 2) ∧
    ((pasteCascade s clip gen1 gen2 gen3).2.2.1.pasteCount = 3) ∧
    ((pasteCascade s clip gen1 gen2 gen3).2.2.2.pasteCount = 4) ∧
    ((pasteCascade s clip gen1 gen2 gen3).2.1.elements
      = s.elements.map deselect
        ++ cloneElems gen1 20 20 0 (selectedElements s)) ∧
    ((pasteCascade s clip gen1 gen2 gen3).2.2.1.elements
      = s.elements.map deselect
        ++ (cloneElems gen1 20 20 0 (selectedElements s)).map deselect
        ++ cloneElems gen2 40 40 0 (selectedElements s)) ∧
    ((pasteCascade s clip gen1 gen2 gen3).2.2.2.elements
      = s.elements.map deselect
        ++ (cloneElems gen1 20 20 0 (selectedElements s)).map deselect
        ++ (cloneElems gen2 40 40 0 (selectedElements s)).map deselect
        ++ cloneElems gen3 60 60 0 (selectedElements s)) := by
  have hne2 : (selectedElements s).isEmpty = false := by
    cases hsel : selectedElements s with
    | nil => exact absurd hsel hne
    | cons a t => rfl
  have hcopy := copyToClipboard_nonempty s clip hne2
  have hgen : ∀ (t : CanvasState) (gen : ℕ → String) (l : List CanvasElement),
      l ≠ [] →
      pasteFromClipboard t (ClipboardData.elems l) none gen
        = { t with
              elements := t.elements.map deselect
                ++ cloneElems gen (20 * t.pasteCount) (20 * t.pasteCount) 0 l
              selectedElementIds :=
                (cloneElems gen (20 * t.pasteCount) (20 * t.pasteCount) 0 l).map
                  (fun el => el.id)
              pasteCount := t.pasteCount + 1 } := by
    intro t gen l hl
    apply paste_nocursor_eq
    cases hc : l with
    | nil => exact absurd hc hl
    | cons a u => rfl
  have q1 : (pasteCascade s clip gen1 gen2 gen3).2.1
      = pasteFromClipboard (copyToClipboard s clip).1 (copyToClipboard s clip).2
          none gen1 := rfl
  have q2 : (pasteCascade s clip gen1 gen2 gen3).2.2.1
      = pasteFromClipboard (pasteFromClipboard (copyToClipboard s clip).1
          (copyToClipboard s clip).2 none gen1) (copyToClipboard s clip).2
          none gen2 := rfl
  have q3 : (pasteCascade s clip gen1 gen2 gen3).2.2.2
      = pasteFromClipboard (pasteFromClipboard (pasteFromClipboard
          (copyToClipboard s clip).1 (copyToClipboard s clip).2 none gen1)
          (copyToClipboard s clip).2 none gen2) (copyToClipboard s clip).2
          none gen3 := rfl
  have h1 : pasteFromClipboard (copyToClipboard s clip).1
      (copyToClipboard s clip).2 none gen1
      = { s with
            elements := s.elements.map deselect
              ++ cloneElems gen1 20 20 0 (selectedElements s)
            selectedElementIds :=
              (cloneElems gen1 20 20 0 (selectedElements s)).map (fun el => el.id)
            pasteCount := 2 } := by
    rw [hcopy]
    rw [hgen _ gen1 _ hne]
    norm_num
  have h2 : pasteFromClipboard (pasteFromClipboard (copyToClipboard s clip).1
      (copyToClipboard s clip).2 none gen1) (copyToClipboard s clip).2 none gen2
      = { s with
            elements := s.elements.map deselect
              ++ (cloneElems gen1 20 20 0 (selectedElements s)).map deselect
              ++ cloneElems gen2 40 40 0 (selectedElements s)
            selectedElementIds :=
              (cloneElems gen2 40 40 0 (selectedElements s)).map (fun el => el.id)
            pasteCount := 3 } := by
    rw [h1]
    rw [show (copyToClipboard s clip).2
        = ClipboardData.elems (selectedElements s) by rw [hcopy]]
    rw [hgen _ gen2 _ hne]
    norm_num [List.map_append, deselect_map_idem, List.append_assoc,
      deselect_deselect, deselect_comp, List.map_map]
  have h3 : pasteFromClipboard (pasteFromClipboard (pasteFromClipboard
      (copyToClipboard s clip).1 (copyToClipboard s clip).2 none gen1)
      (copyToClipboard s clip).2 none gen2) (copyToClipboard s clip).2 none gen3
      = { s with
            elements := s.elements.map deselect
              ++ (cloneElems gen1 20 20 0 (selectedElements s)).map deselect
              ++ (cloneElems gen2 40 40 0 (selectedElements s)).map deselect
              ++ cloneElems gen3 60 60 0 (selectedElements s)
            selectedElementIds :=
              (cloneElems gen3 60 60 0 (selectedElements s)).map (fun el => el.id)
            pasteCount := 4 } := by
    rw [h2]
    rw [show (copyToClipboard s clip).2
        = ClipboardData.elems (selectedElements s) by rw [hcopy]]
    rw [hgen _ gen3 _ hne]
    norm_num [List.map_append, deselect_map_idem, List.append_assoc,
      deselect_deselect, deselect_comp, List.map_map]
  refine ⟨by rw [hcopy], by rw [hcopy], hgen, ?_, ?_, ?_, ?_, ?_, ?_⟩
  · rw [q1, h1]
  · rw [q2, h2]
  · rw [q3, h3]
  · rw [q1, h1]
  · rw [q2, h2]
  · rw [q3, h3]

/-- A store holding one selected 50-by-50 rectangle at the origin. -/
def c6State : CanvasState :=
  { elements := [sampleRect "o" 0 0 50 50 true]
    selectedElementIds := ["o"]
    zoom := 1
    pan := ⟨0, 0⟩
    activeTool := Tool.select
    pasteCount := 7 }

theorem C6_cascading_paste_witness :
    ((pasteCascade c6State ClipboardData.absent (fun _ => "p1") (fun _ => "p2")
        (fun _ => "p3")).2.2.2.elements.map (fun e => (e.x, e.y)))
      = [(0, 0), (20, 20), (40, 40), (60, 60)] := by
  have h := C6_cascading_paste c6State ClipboardData.absent (fun _ => "p1")
    (fun _ => "p2") (fun _ => "p3") (by decide)
  rw [h.2.2.2.2.2.2.2.2]
  norm_num [c6State, selectedElements, sampleRect, cloneElems, deselect,
    List.filter, List.elem]

/-! ### C7 — cursor-anchored paste -/

/-- C7: pasting with a cursor anchor offsets every clone uniformly by the
cursor's world position minus the bounding-box center of the stored elements,
selects exactly the clones, leaves pasteCount untouched, and gives clone i
the freshly generated id gen i. -/
theorem C7_cursor_paste (s : CanvasState) (l : List CanvasElement) (c : Pt)
    (gen : ℕ → String) (hne : l ≠ []) :
    ((pasteFromClipboard s (ClipboardData.elems l) (some c) gen).elements
      = s.elements.map deselect
        ++ cloneElems gen
            ((c.x - s.pan.x) / s.zoom - ((clipBBox l).1 + (clipBBox l).2.2.1) / 2)
            ((c.y - s.pan.y) / s.zoom - ((clipBBox l).2.1 + (clipBBox l).2.2.2) / 2)
            0 l) ∧
    ((pasteFromClipboard s (ClipboardData.elems l) (some c) gen).selectedElementIds
      = (cloneElems gen
            ((c.x - s.pan.x) / s.zoom - ((clipBBox l).1 + (clipBBox l).2.2.1) / 2)
            ((c.y - s.pan.y) / s.zoom - ((clipBBox l).2.1 + (clipBBox l).2.2.2) / 2)
            0 l).map (fun el => el.id)) ∧
    ((pasteFromClipboard s (ClipboardData.elems l) (some c) gen).pasteCount
      = s.pasteCount) ∧
    ((cloneElems gen
            ((c.x - s.pan.x) / s.zoom - ((clipBBox l).1 + (clipBBox l).2.2.1) / 2)
            ((c.y - s.pan.y) / s.zoom - ((clipBBox l).2.1 + (clipBBox l).2.2.2) / 2)
            0 l).map (fun el => el.id)
      = (List.range' 0 l.length).map gen) := by
  have hne2 : l.isEmpty = false := by
    cases hc : l with
    | nil => exact absurd hc hne
    | cons a t => rfl
  rw [paste_cursor_eq s l c gen hne2]
  exact ⟨rfl, rfl, rfl, cloneElems_map_id gen _ _ 0 l⟩

theorem C7_cursor_paste_witness :
    ((pasteFromClipboard emptyState
        (ClipboardData.elems [sampleRect "o" 0 0 50 50 true])
        (some ⟨500, 500⟩) (fun _ => "n")).elements.map
          (fun e => (e.id, e.x, e.y)))
      = [("n", 475, 475)] := by
  have h := C7_cursor_paste emptyState [sampleRect "o" 0 0 50 50 true]
    ⟨500, 500⟩ (fun _ => "n") (by decide)
  rw [h.1]
  norm_num [emptyState, sampleRect, cloneElems, deselect, clipBBox]

/-! ### C1 — the isSelected / selection-set consistency invariant -/

theorem contains_true_iff (l : List String) (x : String) :
    l.contains x = true ↔ x ∈ l := by
  simp

theorem storeInv_setSelectedElements (ids : List String) (s : CanvasState) :
    storeInv (setSelectedElements ids s) := by
  intro e he
  rcases List.mem_map.mp he with ⟨el, _, rfl⟩
  rfl

theorem mem_updateLast {α : Type} (p : α → Bool) (f : α → α) (l : List α) (x : α)
    (h : x ∈ updateLast p f l) : x ∈ l ∨ ∃ y ∈ l, x = f y := by
  unfold updateLast at h
  rw [List.mem_reverse] at h
  rcases mem_updateFirst p f l.reverse x h with h1 | ⟨y, hy, h2⟩
  · exact Or.inl (List.mem_reverse.mp h1)
  · exact Or.inr ⟨y, List.mem_reverse.mp hy, h2⟩

theorem storeInv_updateFirst (s : CanvasState) (p : CanvasElement → Bool)
    (f : CanvasElement → CanvasElement)
    (hf : ∀ el, (f el).id = el.id ∧ (f el).isSelected = el.isSelected)
    (h : storeInv s) :
    storeInv { s with elements := updateFirst p f s.elements } := by
  intro e he
  rcases mem_updateFirst p f s.elements e he with h1 | ⟨y, hy, rfl⟩
  · exact h e h1
  · show (f y).isSelected = s.selectedElementIds.contains (f y).id
    rw [(hf y).1, (hf y).2]
    exact h y hy

theorem applyTransformUpdates_keeps (u : TransformUpdates) (hid : u.id = none)
    (hsel : u.isSelected = none) (el : CanvasElement) :
    (applyTransformUpdates u el).id = el.id ∧
    (applyTransformUpdates u el).isSelected = el.isSelected := by
  unfold applyTransformUpdates
  rw [hid, hsel]
  exact ⟨rfl, rfl⟩

theorem applyTextUpdates_keeps (u : TextUpdates) (hid : u.id = none)
    (hsel : u.isSelected = none) (el : CanvasElement) :
    (applyTextUpdates u el).id = el.id ∧
    (applyTextUpdates u el).isSelected = el.isSelected := by
  unfold applyTextUpdates
  cases el.payload <;> simp [hid, hsel]

theorem cloneElems_isSelected (gen : ℕ → String) (dx dy : ℚ) :
    ∀ (n : ℕ) (l : List CanvasElement) (c : CanvasElement),
      c ∈ cloneElems gen dx dy n l → c.isSelected = true := by
  intro n l
  induction l generalizing n with
  | nil => intro c hc; simp [cloneElems] at hc
  | cons a t ih =>
    intro c hc
    rcases List.mem_cons.mp hc with h1 | h1
    · rw [h1]
    · exact ih (n + 1) c h1

/-- C1 counterexample: setElements installs the given list verbatim without
resynchronizing isSelected, so from a consistent empty store it produces an
element whose flag is true while its id is not in the (empty) selection. -/
theorem C1_counterexample :
    storeInv emptyState ∧
    ¬ storeInv (applyMutation
        (StoreMutation.setElements [sampleRect "b" 0 0 10 10 true]) emptyState) := by
  decide

/-- C1 amended: every listed ElementStore mutation maintains the invariant
that each element's isSelected flag equals its membership in
selectedElementIds, under the side conditions of mutOK: freshly generated
uuids do not collide with existing ids or the current selection, partial
updates passed to updateElementTransform / updateTextElement do not write the
id or isSelected keys, and setElements — which installs its input verbatim
without any resynchronization — is only handed a list that already satisfies
the flag/membership equation for the current selection. -/
theorem C1_selection_flag_invariant (m : StoreMutation) (s : CanvasState)
    (hinv : storeInv s) (hok : mutOK m s) : storeInv (applyMutation m s) := by
  cases m with
  | addElement e newId =>
    intro x hx
    rcases List.mem_append.mp hx with h1 | h1
    · exact hinv x h1
    · rcases List.mem_singleton.mp h1 with rfl
      exact hok.symm
  | removeElement id =>
    intro x hx
    exact hinv x (List.mem_filter.mp hx).1
  | deleteSelectedElements =>
    show storeInv (deleteSelectedElements s)
    unfold deleteSelectedElements
    by_cases h : s.selectedElementIds.isEmpty
    · rw [if_pos h]
      exact hinv
    · rw [if_neg h]
      exact storeInv_setSelectedElements [] _
  | setSelectedElements ids => exact storeInv_setSelectedElements ids s
  | addToSelection ids => exact storeInv_setSelectedElements _ s
  | removeFromSelection ids => exact storeInv_setSelectedElements _ s
  | clearSelection => exact storeInv_setSelectedElements [] s
  | updateElementTransform id u =>
    exact storeInv_updateFirst s _ _
      (applyTransformUpdates_keeps u hok.1 hok.2) hinv
  | updateTextElement id u =>
    exact storeInv_updateFirst s _ _
      (applyTextUpdates_keeps u hok.1 hok.2) hinv
  | updateElementsPositions positions =>
    show storeInv (updateElementsPositions positions s)
    unfold updateElementsPositions
    have key : ∀ (ps : List PosUpdate) (els : List CanvasElement),
        (∀ e ∈ els, e.isSelected = s.selectedElementIds.contains e.id) →
        ∀ e ∈ ps.foldl
          (fun els pos => updateLast (fun el => el.id == pos.id)
            (fun el => { el with x := pos.x, y := pos.y }) els) els,
          e.isSelected = s.selectedElementIds.contains e.id := by
      intro ps
      induction ps with
      | nil => intro els h e he; exact h e he
      | cons p pt ih =>
        intro els h e he
        refine ih _ ?_ e he
        intro x hx
        rcases mem_updateLast _ _ els x hx with h1 | ⟨y, hy, rfl⟩
        · exact h x h1
        · exact h y hy
    exact key positions s.elements hinv
  | setElements els =>
    intro e he
    exact hok e he
  | copyToClipboard clip =>
    show storeInv (copyToClipboard s clip).1
    unfold copyToClipboard
    by_cases h : (selectedElements s).isEmpty
    · rw [if_pos h]
      exact hinv
    · rw [if_neg h]
      exact hinv
  | pasteFromClipboard clip cursor gen =>
    show storeInv (pasteFromClipboard s clip cursor gen)
    cases clip with
    | absent => exact hinv
    | malformed => exact hinv
    | nonArray => exact hinv
    | elems l =>
      by_cases hl : l.isEmpty
      · have : l = [] := by simpa using hl
        rw [this]
        exact hinv
      · have hl2 : l.isEmpty = false := by simpa using hl
        have hfresh : ∀ e ∈ s.elements, ∀ i < l.length, gen i ≠ e.id := hok
        have main : ∀ (dx dy : ℚ) (x : CanvasElement),
            x ∈ s.elements.map deselect ++ cloneElems gen dx dy 0 l →
            x.isSelected
              = ((cloneElems gen dx dy 0 l).map (fun el => el.id)).contains x.id := by
          intro dx dy x hx
          rcases List.mem_append.mp hx with h1 | h1
          · rcases List.mem_map.mp h1 with ⟨y, hy, rfl⟩
            show false = _
            symm
            rw [Bool.eq_false_iff]
            intro hcontra
            rw [contains_true_iff] at hcontra
            rw [cloneElems_map_id] at hcontra
            rcases List.mem_map.mp hcontra with ⟨i, hi, hgi⟩
            have hlt := (List.mem_range'_1.mp hi).2
            exact hfresh y hy i (by simpa using hlt) (by exact hgi)
          · rw [cloneElems_isSelected gen dx dy 0 l x h1]
            symm
            rw [contains_true_iff]
            exact List.mem_map_of_mem (fun el => el.id) h1
        cases cursor with
        | none =>
          rw [paste_nocursor_eq s l gen hl2]
          intro x hx
          exact main _ _ x hx
        | some c =>
          rw [paste_cursor_eq s l c gen hl2]
          intro x hx
          exact main _ _ x hx
  | toggleTextFormatting id fmt =>
    apply storeInv_updateFirst s _ _ ?_ hinv
    intro el
    cases el with
    | mk eid ex ey ew eh er esel epay =>
      cases epay <;> exact ⟨rfl, rfl⟩

/-- A state with one selected and one unselected element, consistent. -/
def c1State : CanvasState :=
  { elements := [sampleRect "a" 0 0 10 10 true, sampleRect "b" 20 20 5 5 false]
    selectedElementIds := ["a"]
    zoom := 1
    pan := ⟨0, 0⟩
    activeTool := Tool.select
    pasteCount := 1 }

theorem C1_selection_flag_invariant_witness :
    storeInv (applyMutation (StoreMutation.addToSelection ["b"]) c1State) :=
  C1_selection_flag_invariant (StoreMutation.addToSelection ["b"]) c1State
    (by decide) trivial

/-! ### C3 — bounding-box resize policy -/

theorem foldl_map_pointwise {β : Type} (g : β → CanvasElement → CanvasElement)
    (ps : List β) (els : List CanvasElement) :
    ps.foldl (fun l p => l.map (g p)) els
      = els.map (fun x => ps.foldl (fun x p => g p x) x) := by
  induction ps generalizing els with
  | nil => simp
  | cons p pt ih =>
    simp only [List.foldl_cons]
    rw [ih, List.map_map]
    apply List.map_congr_left
    intro x _
    rfl

theorem resizedUpdates_keeps (sb nb : Bounds) (st : Bounds) (el : CanvasElement) :
    (applyTransformUpdates (resizedUpdates sb nb st) el).id = el.id ∧
    (applyTransformUpdates (resizedUpdates sb nb st) el).isSelected = el.isSelected :=
  applyTransformUpdates_keeps _ rfl rfl el

theorem foldl_updateFirst_eq (sb nb : Bounds) (ss : List (String × Bounds))
    (els : List CanvasElement) (h : (els.map (fun el => el.id)).Nodup) :
    ss.foldl (fun l p => updateFirst (fun el => el.id == p.1)
        (applyTransformUpdates (resizedUpdates sb nb p.2)) l) els
      = ss.foldl (fun l p => l.map (fun el => if el.id == p.1
          then applyTransformUpdates (resizedUpdates sb nb p.2) el else el)) els := by
  induction ss generalizing els with
  | nil => rfl
  | cons p pt ih =>
    simp only [List.foldl_cons]
    rw [updateFirst_eq_map_by_id p.1 _ els h]
    apply ih
    have hids : (els.map (fun el => if el.id == p.1
        then applyTransformUpdates (resizedUpdates sb nb p.2) el else el)).map
          (fun el => el.id) = els.map (fun el => el.id) := by
      rw [List.map_map]
      apply List.map_congr_left
      intro x _
      by_cases hc : x.id == p.1 <;> simp [Function.comp, hc, (resizedUpdates_keeps sb nb p.2 x).1]
    rw [hids]
    exact h

theorem foldl_step_no_match (sb nb : Bounds) (pt : List (String × Bounds))
    (y : CanvasElement) (h : ∀ q ∈ pt, (y.id == q.1) = false) :
    pt.foldl (fun z p => if z.id == p.1
      then applyTransformUpdates (resizedUpdates sb nb p.2) z else z) y = y := by
  induction pt with
  | nil => rfl
  | cons q qt ih =>
    simp only [List.foldl_cons]
    rw [if_neg (by simp [h q (List.mem_cons_self q qt)])]
    exact ih (fun r hr => h r (List.mem_cons_of_mem q hr))

theorem foldl_step_lookup (sb nb : Bounds) (ss : List (String × Bounds))
    (x : CanvasElement) (hk : (ss.map Prod.fst).Nodup) :
    ss.foldl (fun y p => if y.id == p.1
        then applyTransformUpdates (resizedUpdates sb nb p.2) y else y) x
      = match ss.lookup x.id with
        | some st => applyTransformUpdates (resizedUpdates sb nb st) x
        | none => x := by
  induction ss generalizing x with
  | nil => rfl
  | cons p pt ih =>
    obtain ⟨k, st⟩ := p
    rw [List.map_cons, List.nodup_cons] at hk
    simp only [List.foldl_cons]
    by_cases hc : x.id == k
    · rw [if_pos hc]
      have hl : ((k, st) :: pt).lookup x.id = some st := by
        simp [List.lookup, hc]
      rw [hl]
      apply foldl_step_no_match
      intro q hq
      rw [(resizedUpdates_keeps sb nb st x).1]
      have hxk : x.id = k := by simpa using hc
      rw [hxk]
      rw [beq_eq_false_iff_ne]
      intro hcontra
      apply hk.1
      rw [hcontra]
      exact List.mem_map.mpr ⟨q, hq, rfl⟩
    · rw [if_neg hc]
      have hl : ((k, st) :: pt).lookup x.id = pt.lookup x.id := by
        simp only [List.lookup]
        rw [show (x.id == k) = false by simpa using hc]
      rw [hl]
      exact ih x hk.2

theorem foldl_updateElementTransform (ss : List (String × Bounds)) (sb nb : Bounds) :
    ∀ (t : CanvasState),
    ((ss.foldl (fun st p =>
        updateElementTransform p.1 (resizedUpdates sb nb p.2) st) t).elements
      = ss.foldl (fun l p => updateFirst (fun el => el.id == p.1)
          (applyTransformUpdates (resizedUpdates sb nb p.2)) l) t.elements) ∧
    ((ss.foldl (fun st p =>
        updateElementTransform p.1 (resizedUpdates sb nb p.2) st) t).selectedElementIds
      = t.selectedElementIds) := by
  induction ss with
  | nil => intro t; exact ⟨rfl, rfl⟩
  | cons p pt ih =>
    intro t
    simp only [List.foldl_cons]
    exact ih (updateElementTransform p.1 (resizedUpdates sb nb p.2) t)

/-- The mixed rectangle-and-text selection of the specification's resize
example. -/
def c3State : CanvasState :=
  { elements := [sampleRect "r" 10 10 20 20 true,
                 sampleText "t" 50 50 30 10 true [{ text := ['h'] }]]
    selectedElementIds := ["r", "t"]
    zoom := 1
    pan := ⟨0, 0⟩
    activeTool := Tool.select
    pasteCount := 1 }

/-- The resize snapshot of the two selected elements of c3State. -/
def c3Snapshot : List (String × Bounds) :=
  [("r", ⟨10, 10, 20, 20⟩), ("t", ⟨50, 50, 30, 10⟩)]

/-- C3 counterexample: for the mixed rectangle-plus-text selection of the
specification's own resize example, the code offers no handles at all
(isResizable is false although the selection is not a single text element),
and the resize transform itself — dragging the se handle from a
100-by-100 box to 150-by-100 — scales the text element's width from 30 to 45
instead of keeping it fixed at 30. -/
theorem C3_counterexample :
    isResizable c3State = false ∧
    ((handleResizeMove c3State c3Snapshot ⟨0, 0, 100, 100⟩ ResizeHandle.se
        50 0).elements.map (fun e => (e.id, e.x, e.y, e.width, e.height)))
      = [("r", 15, 10, 30, 20), ("t", 75, 50, 45, 10)] ∧
    ((45 : ℚ) ≠ 30) := by
  refine ⟨by decide, ?_, by norm_num⟩
  norm_num [handleResizeMove, c3State, c3Snapshot, computeNewBounds,
    resizedUpdates, updateElementTransform, applyTransformUpdates, updateFirst,
    sampleRect, sampleText]
  simp

/-- C3 amended: resize handles are offered exactly when no selected element
is a text element (in particular a single selected text element gets none,
but so does any mixed selection containing text); startResize refuses when
handles are disabled; and when a resize does run, handleResizeMove leaves the
selection untouched and maps every snapshotted element — with no exemption
for text — to position newBoundsOrigin + (oldPos - oldBoundsOrigin) * scale
and size oldSize * scale, while elements outside the snapshot stay put. -/
theorem C3_resize_policy (s : CanvasState) (ss : List (String × Bounds))
    (sb : Bounds) (handle : ResizeHandle) (dxs dys : ℚ)
    (hn : (s.elements.map (fun el => el.id)).Nodup)
    (hk : (ss.map Prod.fst).Nodup) :
    (isResizable s = true ↔ ∀ el ∈ selectedElements s, el.isText = false) ∧
    (isResizable s = false → startResize s = none) ∧
    ((handleResizeMove s ss sb handle dxs dys).selectedElementIds
      = s.selectedElementIds) ∧
    ((handleResizeMove s ss sb handle dxs dys).elements
      = s.elements.map (fun el =>
          match ss.lookup el.id with
          | some st => applyTransformUpdates (resizedUpdates sb
              (computeNewBounds handle sb (dxs / s.zoom) (dys / s.zoom)) st) el
          | none => el)) := by
  refine ⟨?_, ?_, ?_, ?_⟩
  · unfold isResizable
    rw [Bool.not_eq_true']
    rw [List.any_eq_false]
    constructor
    · intro h el hel
      have := h el hel
      simpa using this
    · intro h el hel
      simp [h el hel]
  · intro h
    unfold startResize
    rw [h]
    rfl
  · exact (foldl_updateElementTransform ss sb
      (computeNewBounds handle sb (dxs / s.zoom) (dys / s.zoom)) s).2
  · have h1 := (foldl_updateElementTransform ss sb
      (computeNewBounds handle sb (dxs / s.zoom) (dys / s.zoom)) s).1
    have h2 := foldl_updateFirst_eq sb
      (computeNewBounds handle sb (dxs / s.zoom) (dys / s.zoom)) ss s.elements hn
    have h3 := foldl_map_pointwise (fun (p : String × Bounds) el =>
      if el.id == p.1 then applyTransformUpdates (resizedUpdates sb
        (computeNewBounds handle sb (dxs / s.zoom) (dys / s.zoom)) p.2) el
      else el) ss s.elements
    refine Eq.trans (Eq.trans (Eq.trans h1 h2) h3) ?_
    apply List.map_congr_left
    intro x _
    exact foldl_step_lookup sb
      (computeNewBounds handle sb (dxs / s.zoom) (dys / s.zoom)) ss x hk

theorem C3_resize_policy_witness :
    (isResizable c1State = true ↔
      ∀ el ∈ selectedElements c1State, el.isText = false) ∧
    ((handleResizeMove c1State [("a", ⟨0, 0, 10, 10⟩)] ⟨0, 0, 10, 10⟩
        ResizeHandle.se 10 0).selectedElementIds = c1State.selectedElementIds) := by
  have h := C3_resize_policy c1State [("a", ⟨0, 0, 10, 10⟩)] ⟨0, 0, 10, 10⟩
    ResizeHandle.se 10 0 (by decide) (by decide)
  exact ⟨h.1, h.2.2.1⟩

/-! ### C4 — the span/markup codec roundtrip -/

/-- A flag as decode can produce it: absent or explicitly true (decode never
emits an explicit false, since inherited styles only record enabled tags). -/
def normFlag (o : Option Bool) : Prop := o = none ∨ o = some true

instance : DecidablePred normFlag := fun o =>
  inferInstanceAs (Decidable (_ ∨ _))

/-- A span in the image of the decoder: nonempty text and absent-or-true
flags. -/
def normSpan (sp : TextSpan) : Prop :=
  sp.text ≠ [] ∧ normFlag sp.bold ∧ normFlag sp.italic ∧
    normFlag sp.underline ∧ normFlag sp.strikethrough

instance : DecidablePred normSpan := fun sp =>
  inferInstanceAs (Decidable (_ ∧ _))

/-- The style context a span's wrappers put the decoder into. -/
def ctxOf (sp : TextSpan) : StyleCtx :=
  { bold := truthy sp.bold
    italic := truthy sp.italic
    underline := truthy sp.underline
    strikethrough := truthy sp.strikethrough }

theorem spanOfCtx_ctxOf (t : List Char) (sp : TextSpan) (h : normSpan sp) :
    spanOfCtx t (ctxOf sp)
      = { text := t, bold := sp.bold, italic := sp.italic,
          underline := sp.underline, strikethrough := sp.strikethrough } := by
  obtain ⟨-, hb, hi, hu, hs⟩ := h
  unfold spanOfCtx ctxOf
  rcases hb with hb | hb <;> rcases hi with hi | hi <;>
    rcases hu with hu | hu <;> rcases hs with hs | hs <;>
      simp [hb, hi, hu, hs, truthy]

theorem traverseList_append (ctx : StyleCtx) (acc : List TextSpan)
    (ns ms : List HtmlNode) :
    traverseList ctx acc (ns ++ ms) = traverseList ctx (traverseList ctx acc ns) ms := by
  induction ns generalizing acc with
  | nil => rfl
  | cons n nt ih =>
    show traverseList ctx (traverseNode ctx acc n) (nt ++ ms) = _
    rw [ih]
    rfl

theorem traverseList_wrapIf (flag : Option Bool) (tag : HtmlTag)
    (htag : tag ≠ HtmlTag.div) (ctx : StyleCtx) (acc : List TextSpan)
    (nodes : List HtmlNode) :
    traverseList ctx acc (wrapIf flag tag nodes)
      = traverseList (if truthy flag then updateCtx tag ctx else ctx) acc nodes := by
  unfold wrapIf
  cases hf : truthy flag
  · simp
  · simp only [if_true]
    show traverseList ctx (traverseNode ctx acc (HtmlNode.elem tag nodes)) [] = _
    show traverseNode ctx acc (HtmlNode.elem tag nodes) = _
    unfold traverseNode
    rw [if_neg (by simp [htag])]

/-- Walking one span's parse tree equals walking its bare text nodes in the
context recording exactly its truthy flags. -/
theorem traverseList_spanTree (sp : TextSpan) (acc : List TextSpan) :
    traverseList {} acc (spanTree sp)
      = traverseList (ctxOf sp) acc (textNodesOfChunks (splitNL sp.text)) := by
  unfold spanTree
  rw [traverseList_wrapIf sp.strikethrough HtmlTag.s (by simp) _ acc _,
      traverseList_wrapIf sp.underline HtmlTag.u (by simp) _ acc _,
      traverseList_wrapIf sp.italic HtmlTag.i (by simp) _ acc _,
      traverseList_wrapIf sp.bold HtmlTag.b (by simp) _ acc _]
  have hctx : (if truthy sp.bold then updateCtx HtmlTag.b
        (if truthy sp.italic then updateCtx HtmlTag.i
          (if truthy sp.underline then updateCtx HtmlTag.u
            (if truthy sp.strikethrough then updateCtx HtmlTag.s {} else {})
          else (if truthy sp.strikethrough then updateCtx HtmlTag.s {} else {}))
        else (if truthy sp.underline then updateCtx HtmlTag.u
            (if truthy sp.strikethrough then updateCtx HtmlTag.s {} else {})
          else (if truthy sp.strikethrough then updateCtx HtmlTag.s {} else {})))
      else (if truthy sp.italic then updateCtx HtmlTag.i
          (if truthy sp.underline then updateCtx HtmlTag.u
            (if truthy sp.strikethrough then updateCtx HtmlTag.s {} else {})
          else (if truthy sp.strikethrough then updateCtx HtmlTag.s {} else {}))
        else (if truthy sp.underline then updateCtx HtmlTag.u
            (if truthy sp.strikethrough then updateCtx HtmlTag.s {} else {})
          else (if truthy sp.strikethrough then updateCtx HtmlTag.s {} else {}))))
      = ctxOf sp := by
    unfold ctxOf updateCtx
    cases truthy sp.bold <;> cases truthy sp.italic <;>
      cases truthy sp.underline <;> cases truthy sp.strikethrough <;> simp
  rw [hctx]

/-- The spans the decoder collects from the text nodes of one encoded span:
one per nonempty chunk and one per newline, all in the given context. -/
def chunkSpans (ctx : StyleCtx) : List (List Char) → List TextSpan
  | [] => []
  | [c] => if c.isEmpty then [] else [spanOfCtx c ctx]
  | c :: cs =>
    (if c.isEmpty then ([] : List TextSpan) else [spanOfCtx c ctx])
      ++ spanOfCtx ['\n'] ctx :: chunkSpans ctx cs

theorem traverseList_textNodes (ctx : StyleCtx) (chunks : List (List Char)) :
    ∀ acc, traverseList ctx acc (textNodesOfChunks chunks)
      = acc ++ chunkSpans ctx chunks := by
  induction chunks with
  | nil => intro acc; simp [textNodesOfChunks, chunkSpans, traverseList]
  | cons c cs ih =>
    intro acc
    cases cs with
    | nil =>
      show traverseList ctx acc (if c.isEmpty then [] else [HtmlNode.text c])
        = acc ++ (if c.isEmpty then [] else [spanOfCtx c ctx])
      cases hc : c.isEmpty
      · rw [if_neg (show ¬ (false = true) by simp),
           if_neg (show ¬ (false = true) by simp)]
        show traverseNode ctx acc (HtmlNode.text c) = _
        unfold traverseNode
        rw [hc]
        rfl
      · rw [if_pos (by simp [hc]), if_pos (by simp [hc])]
        show acc = acc ++ []
        rw [List.append_nil]
    | cons d ds =>
      show traverseList ctx acc
          ((if c.isEmpty then ([] : List HtmlNode) else [HtmlNode.text c])
            ++ HtmlNode.br :: textNodesOfChunks (d :: ds))
        = acc ++ ((if c.isEmpty then ([] : List TextSpan) else [spanOfCtx c ctx])
            ++ spanOfCtx ['\n'] ctx :: chunkSpans ctx (d :: ds))
      rw [traverseList_append]
      have hbr : ∀ a, traverseList ctx a (HtmlNode.br :: textNodesOfChunks (d :: ds))
          = a ++ spanOfCtx ['\n'] ctx :: chunkSpans ctx (d :: ds) := by
        intro a
        show traverseList ctx (traverseNode ctx a HtmlNode.br) (textNodesOfChunks (d :: ds)) = _
        rw [ih]
        rw [show traverseNode ctx a HtmlNode.br
          = a ++ [spanOfCtx ['\n'] ctx] from rfl]
        rw [List.append_assoc]
        rfl
      cases hc : c.isEmpty
      · rw [if_neg (by simp [hc]), if_neg (by simp [hc])]
        have ht : traverseList ctx acc [HtmlNode.text c] = acc ++ [spanOfCtx c ctx] := by
          show traverseNode ctx acc (HtmlNode.text c) = _
          unfold traverseNode
          rw [hc]
          rfl
        rw [ht, hbr, List.append_assoc]
      · rw [if_pos (by simp [hc]), if_pos (by simp [hc])]
        show traverseList ctx acc (HtmlNode.br :: textNodesOfChunks (d :: ds)) = _
        rw [hbr]
        rfl

/-- Concatenation of the texts of a span list. -/
def joinTexts (l : List TextSpan) : List Char :=
  (l.map (fun sp => sp.text)).flatten

/-- Rejoin chunks with one newline between consecutive chunks. -/
def intercalateNL : List (List Char) → List Char
  | [] => []
  | [c] => c
  | c :: cs => c ++ '\n' :: intercalateNL cs

theorem splitNL_ne_nil (t : List Char) : splitNL t ≠ [] := by
  cases t with
  | nil => simp [splitNL]
  | cons c cs =>
    unfold splitNL
    cases splitNL cs with
    | nil => simp
    | cons chunk rest =>
      by_cases hc : c = '\n' <;> simp [hc]

theorem intercalateNL_splitNL (t : List Char) : intercalateNL (splitNL t) = t := by
  induction t with
  | nil => rfl
  | cons c cs ih =>
    rcases hs : splitNL cs with - | ⟨chunk, rest⟩
    · exact absurd hs (splitNL_ne_nil cs)
    · have hsplit : splitNL (c :: cs)
          = if c = '\n' then [] :: chunk :: rest else (c :: chunk) :: rest := by
        unfold splitNL
        rw [hs]
      rw [hs] at ih
      rw [hsplit]
      by_cases hc : c = '\n'
      · rw [if_pos hc, hc]
        show [] ++ '\n' :: intercalateNL (chunk :: rest) = '\n' :: cs
        rw [List.nil_append, ih]
      · rw [if_neg hc]
        cases rest with
        | nil =>
          show c :: chunk = c :: cs
          rw [show intercalateNL [chunk] = chunk from rfl] at ih
          rw [ih]
        | cons r rs =>
          show (c :: chunk) ++ '\n' :: intercalateNL (r :: rs) = c :: cs
          rw [List.cons_append]
          rw [show chunk ++ '\n' :: intercalateNL (r :: rs)
            = intercalateNL (chunk :: r :: rs) from rfl]
          rw [ih]

theorem joinTexts_cons (sp : TextSpan) (l : List TextSpan) :
    joinTexts (sp :: l) = sp.text ++ joinTexts l := by
  simp [joinTexts]

theorem joinTexts_append (a b : List TextSpan) :
    joinTexts (a ++ b) = joinTexts a ++ joinTexts b := by
  simp [joinTexts]

theorem joinTexts_chunkSpans (ctx : StyleCtx) (chunks : List (List Char)) :
    joinTexts (chunkSpans ctx chunks) = intercalateNL chunks := by
  induction chunks with
  | nil => rfl
  | cons c cs ih =>
    cases cs with
    | nil =>
      show joinTexts (if c.isEmpty then [] else [spanOfCtx c ctx]) = c
      cases hc : c.isEmpty
      · simp [joinTexts, spanOfCtx]
      · have hce : c = [] := by simpa using hc
        simp [hce, joinTexts]
    | cons d ds =>
      show joinTexts ((if c.isEmpty then ([] : List TextSpan) else [spanOfCtx c ctx])
          ++ spanOfCtx ['\n'] ctx :: chunkSpans ctx (d :: ds))
        = c ++ '\n' :: intercalateNL (d :: ds)
      cases hc : c.isEmpty
      · rw [if_neg (by simp [hc])]
        simp [joinTexts_append, joinTexts_cons, spanOfCtx, joinTexts]
        exact ih
      · have hce : c = [] := by simpa using hc
        rw [if_pos (by simp [hc])]
        simp [hce, joinTexts_cons, spanOfCtx, joinTexts]
        exact ih

theorem sameFlags_iff (a b : TextSpan) :
    sameFlags a b = true ↔ (a.bold = b.bold ∧ a.italic = b.italic ∧
      a.underline = b.underline ∧ a.strikethrough = b.strikethrough) := by
  simp [sameFlags, Bool.and_eq_true, and_assoc]

theorem sameFlags_trans {a b c : TextSpan} (hab : sameFlags a b = true)
    (hbc : sameFlags b c = true) : sameFlags a c = true := by
  rw [sameFlags_iff] at hab hbc ⊢
  exact ⟨hab.1.trans hbc.1, hab.2.1.trans hbc.2.1,
    hab.2.2.1.trans hbc.2.2.1, hab.2.2.2.trans hbc.2.2.2⟩

theorem sameFlags_symm_true {a b : TextSpan} (h : sameFlags a b = true) :
    sameFlags b a = true := by
  rw [sameFlags_iff] at h ⊢
  exact ⟨h.1.symm, h.2.1.symm, h.2.2.1.symm, h.2.2.2.symm⟩

theorem sameFlags_text_right (a b : TextSpan) (t : List Char) :
    sameFlags a { b with text := t } = sameFlags a b := rfl

theorem sameFlags_text_left (a b : TextSpan) (t : List Char) :
    sameFlags { a with text := t } b = sameFlags a b := rfl

theorem sameFlags_spanOfCtx (t1 t2 : List Char) (ctx : StyleCtx) :
    sameFlags (spanOfCtx t1 ctx) (spanOfCtx t2 ctx) = true := by
  simp [sameFlags, spanOfCtx]

theorem mergeStep_nil (x : TextSpan) : mergeStep [] x = [x] := rfl

theorem mergeStep_concat (l : List TextSpan) (a x : TextSpan) :
    mergeStep (l ++ [a]) x
      = if sameFlags a x then l ++ [{ a with text := a.text ++ x.text }]
        else (l ++ [a]) ++ [x] := by
  unfold mergeStep
  rw [List.getLast?_concat]
  show (if sameFlags a x = true then (l ++ [a]).dropLast
      ++ [{ a with text := a.text ++ x.text }] else l ++ [a] ++ [x]) = _
  by_cases h : sameFlags a x = true
  · rw [if_pos h, if_pos h, List.dropLast_concat]
  · rw [if_neg h, if_neg h]

theorem mergeStep_mergeStep (m : List TextSpan) (x y : TextSpan)
    (h : sameFlags x y = true) :
    mergeStep (mergeStep m x) y = mergeStep m { x with text := x.text ++ y.text } := by
  rcases List.eq_nil_or_concat m with rfl | ⟨l, a, rfl⟩
  · rw [mergeStep_nil]
    rw [show ([x] : List TextSpan) = [] ++ [x] from rfl]
    rw [mergeStep_concat, if_pos h]
    rfl
  · simp only [List.concat_eq_append]
    rw [mergeStep_concat]
    by_cases hax : sameFlags a x = true
    · rw [if_pos hax]
      rw [mergeStep_concat]
      rw [if_pos (by rw [sameFlags_text_left]; exact sameFlags_trans hax h)]
      rw [mergeStep_concat]
      rw [if_pos (by rw [sameFlags_text_right]; exact hax)]
      simp [List.append_assoc]
    · rw [if_neg hax]
      rw [mergeStep_concat, if_pos h]
      rw [mergeStep_concat]
      rw [if_neg (by rw [sameFlags_text_right]; exact hax)]

theorem chunkSpans_flags (ctx : StyleCtx) :
    ∀ (chunks : List (List Char)) (q : TextSpan), q ∈ chunkSpans ctx chunks →
      ∃ t, q = spanOfCtx t ctx := by
  intro chunks
  induction chunks with
  | nil => intro q hq; simp [chunkSpans] at hq
  | cons c cs ih =>
    intro q hq
    cases cs with
    | nil =>
      rw [show chunkSpans ctx [c]
        = if c.isEmpty then [] else [spanOfCtx c ctx] from rfl] at hq
      by_cases hc : c.isEmpty
      · rw [if_pos hc] at hq
        simp at hq
      · rw [if_neg hc] at hq
        rcases List.mem_singleton.mp hq with rfl
        exact ⟨c, rfl⟩
    | cons d ds =>
      rw [show chunkSpans ctx (c :: d :: ds)
        = (if c.isEmpty then ([] : List TextSpan) else [spanOfCtx c ctx])
          ++ spanOfCtx ['\n'] ctx :: chunkSpans ctx (d :: ds) from rfl] at hq
      rcases List.mem_append.mp hq with h1 | h1
      · by_cases hc : c.isEmpty
        · rw [if_pos hc] at h1
          simp at h1
        · rw [if_neg hc] at h1
          rcases List.mem_singleton.mp h1 with rfl
          exact ⟨c, rfl⟩
      · rcases List.mem_cons.mp h1 with rfl | h2
        · exact ⟨['\n'], rfl⟩
        · exact ih q h2

/-- The span fragments the decoder collects for one encoded span. -/
def rawSpan (sp : TextSpan) : List TextSpan :=
  chunkSpans (ctxOf sp) (splitNL sp.text)

theorem rawSpan_ne_nil (sp : TextSpan) (h : sp.text ≠ []) : rawSpan sp ≠ [] := by
  unfold rawSpan
  rcases ht : sp.text with - | ⟨c, cs⟩
  · exact absurd ht h
  · rcases hs : splitNL cs with - | ⟨chunk, rest⟩
    · exact absurd hs (splitNL_ne_nil cs)
    · have hsplit : splitNL (c :: cs)
          = if c = '\n' then [] :: chunk :: rest else (c :: chunk) :: rest := by
        unfold splitNL
        rw [hs]
      rw [hsplit]
      by_cases hc : c = '\n'
      · rw [if_pos hc]
        simp [chunkSpans]
      · rw [if_neg hc]
        cases rest with
        | nil => simp [chunkSpans]
        | cons r rs => simp [chunkSpans]

theorem foldl_mergeStep_run (P : List TextSpan) :
    ∀ (m : List TextSpan) (x : TextSpan), (∀ p ∈ P, sameFlags x p = true) →
      List.foldl mergeStep m (x :: P)
        = mergeStep m { x with text := x.text ++ joinTexts P } := by
  induction P with
  | nil =>
    intro m x _
    show mergeStep m x = _
    rw [show joinTexts [] = [] from rfl, List.append_nil]
  | cons p ps ih =>
    intro m x h
    show List.foldl mergeStep (mergeStep m x) (p :: ps) = _
    rw [ih (mergeStep m x) p (fun q hq =>
      sameFlags_trans (sameFlags_symm_true (h p (List.mem_cons_self p ps)))
        (h q (List.mem_cons_of_mem p hq)))]
    rw [mergeStep_mergeStep m x _
      (by rw [sameFlags_text_right]; exact h p (List.mem_cons_self p ps))]
    rw [joinTexts_cons]

theorem rawSpan_merge (sp : TextSpan) (hn : normSpan sp) (m : List TextSpan) :
    List.foldl mergeStep m (rawSpan sp) = mergeStep m sp := by
  rcases hraw : rawSpan sp with - | ⟨x, P⟩
  · exact absurd hraw (rawSpan_ne_nil sp hn.1)
  · have hx : ∃ t, x = spanOfCtx t (ctxOf sp) := by
      apply chunkSpans_flags (ctxOf sp) (splitNL sp.text) x
      rw [show chunkSpans (ctxOf sp) (splitNL sp.text) = rawSpan sp from rfl, hraw]
      exact List.mem_cons_self x P
    have hP : ∀ p ∈ P, ∃ t, p = spanOfCtx t (ctxOf sp) := by
      intro p hp
      apply chunkSpans_flags (ctxOf sp) (splitNL sp.text) p
      rw [show chunkSpans (ctxOf sp) (splitNL sp.text) = rawSpan sp from rfl, hraw]
      exact List.mem_cons_of_mem x hp
    have hflags : ∀ p ∈ P, sameFlags x p = true := by
      intro p hp
      obtain ⟨t1, rfl⟩ := hx
      obtain ⟨t2, rfl⟩ := hP p hp
      exact sameFlags_spanOfCtx t1 t2 (ctxOf sp)
    rw [foldl_mergeStep_run P m x hflags]
    have hjoin : x.text ++ joinTexts P = sp.text := by
      have hj := joinTexts_chunkSpans (ctxOf sp) (splitNL sp.text)
      rw [intercalateNL_splitNL] at hj
      rw [show chunkSpans (ctxOf sp) (splitNL sp.text) = rawSpan sp from rfl,
        hraw, joinTexts_cons] at hj
      exact hj
    have hA : { x with text := x.text ++ joinTexts P } = sp := by
      obtain ⟨t, rfl⟩ := hx
      have hj2 : t ++ joinTexts P = sp.text := by simpa using hjoin
      rw [spanOfCtx_ctxOf t sp hn]
      show TextSpan.mk (t ++ joinTexts P) sp.bold sp.italic sp.underline
        sp.strikethrough = sp
      rw [hj2]
    rw [hA]

/-- Markup-free text: no character that the unescaped encoder would let the
innerHTML re-parse read as the start of a tag or of a character entity. -/
def plainText (t : List Char) : Prop := ∀ c ∈ t, c ≠ '<' ∧ c ≠ '&'

instance : DecidablePred plainText := fun t =>
  inferInstanceAs (Decidable (∀ c ∈ t, c ≠ '<' ∧ c ≠ '&'))

theorem splitNL_chars (t : List Char) :
    ∀ ch ∈ splitNL t, ∀ c ∈ ch, c ∈ t := by
  induction t with
  | nil =>
    intro ch hch c hc
    simp [splitNL] at hch
    subst hch
    simp at hc
  | cons a as ih =>
    intro ch hch c hc
    rcases hs : splitNL as with - | ⟨chunk, rest⟩
    · exact absurd hs (splitNL_ne_nil as)
    · have hsplit : splitNL (a :: as)
          = if a = '\n' then [] :: chunk :: rest else (a :: chunk) :: rest := by
        unfold splitNL
        rw [hs]
      rw [hsplit] at hch
      by_cases ha : a = '\n'
      · rw [if_pos ha] at hch
        rcases List.mem_cons.mp hch with rfl | h2
        · simp at hc
        · exact List.mem_cons_of_mem a (ih ch (by rw [hs]; exact h2) c hc)
      · rw [if_neg ha] at hch
        rcases List.mem_cons.mp hch with rfl | h2
        · rcases List.mem_cons.mp hc with rfl | h3
          · exact List.mem_cons_self c as
          · exact List.mem_cons_of_mem a
              (ih chunk (by rw [hs]; exact List.mem_cons_self chunk rest) c h3)
        · exact List.mem_cons_of_mem a
            (ih ch (by rw [hs]; exact List.mem_cons_of_mem chunk h2) c hc)

theorem plainText_splitNL (t : List Char) (h : plainText t) :
    ∀ ch ∈ splitNL t, ∀ c ∈ ch, c ≠ '<' ∧ c ≠ '&' :=
  fun ch hch c hc => h c (splitNL_chars t ch hch c hc)

/-- Specification device: coalesce adjacent top-level text nodes (with a
pending text run on the left), mirroring how the parser's text buffer glues
the texts of consecutive unstyled spans into one DOM text node. -/
def coalesceTopAux (buf : List Char) : List HtmlNode → List HtmlNode
  | [] => flushNode buf
  | HtmlNode.text a :: ns => coalesceTopAux (buf ++ a) ns
  | n :: ns => flushNode buf ++ n :: coalesceTopAux [] ns

theorem parse_lit (c : Char) (h1 : c ≠ '<') (h2 : c ≠ '&')
    (buf : List Char) (cur : List HtmlNode)
    (stack : List (HtmlTag × List HtmlNode)) :
    htmlStep ⟨ScanMode.text, buf, cur, stack⟩ c
      = ⟨ScanMode.text, buf ++ [c], cur, stack⟩ := by
  simp only [htmlStep]
  rw [if_neg h1, if_neg h2]

theorem parse_lit_run (t : List Char) (hp : ∀ c ∈ t, c ≠ '<' ∧ c ≠ '&') :
    ∀ buf cur stack X,
      List.foldl htmlStep (⟨ScanMode.text, buf, cur, stack⟩ : ScanState) (t ++ X)
        = List.foldl htmlStep ⟨ScanMode.text, buf ++ t, cur, stack⟩ X := by
  induction t with
  | nil => intro buf cur stack X; simp
  | cons c cs ih =>
    intro buf cur stack X
    have hc := hp c (List.mem_cons_self c cs)
    show List.foldl htmlStep (htmlStep ⟨ScanMode.text, buf, cur, stack⟩ c)
        (cs ++ X) = _
    rw [parse_lit c hc.1 hc.2]
    rw [ih (fun x hx => hp x (List.mem_cons_of_mem c hx))]
    simp

theorem parse_br (buf : List Char) (cur : List HtmlNode)
    (stack : List (HtmlTag × List HtmlNode)) (X : List Char) :
    List.foldl htmlStep (⟨ScanMode.text, buf, cur, stack⟩ : ScanState)
        ('<' :: 'b' :: 'r' :: '>' :: X)
      = List.foldl htmlStep
          ⟨ScanMode.text, [], cur ++ flushNode buf ++ [HtmlNode.br], stack⟩ X := rfl

/-- The four style tags the encoder can emit. -/
def styleTag (tg : HtmlTag) : Prop :=
  tg = HtmlTag.b ∨ tg = HtmlTag.i ∨ tg = HtmlTag.u ∨ tg = HtmlTag.s

theorem parse_open_tag (tg : HtmlTag) (h : styleTag tg) (buf : List Char)
    (cur : List HtmlNode) (stack : List (HtmlTag × List HtmlNode))
    (X : List Char) :
    List.foldl htmlStep (⟨ScanMode.text, buf, cur, stack⟩ : ScanState)
        (openChars tg ++ X)
      = List.foldl htmlStep
          ⟨ScanMode.text, [], [], (tg, cur ++ flushNode buf) :: stack⟩ X := by
  rcases h with rfl | rfl | rfl | rfl <;> rfl

theorem parse_close_tag (tg : HtmlTag) (h : styleTag tg) (buf : List Char)
    (cur sib : List HtmlNode) (st : List (HtmlTag × List HtmlNode))
    (X : List Char) :
    List.foldl htmlStep (⟨ScanMode.text, buf, cur, (tg, sib) :: st⟩ : ScanState)
        (closeChars tg ++ X)
      = List.foldl htmlStep
          ⟨ScanMode.text, [], sib ++ [HtmlNode.elem tg (cur ++ flushNode buf)],
            st⟩ X := by
  rcases h with rfl | rfl | rfl | rfl <;> rfl

/-- Specification device: rejoin chunks with a literal br tag between
consecutive chunks, the shape of a replaced text. -/
def intercalateBR : List (List Char) → List Char
  | [] => []
  | [c] => c
  | c :: cs => c ++ '<' :: 'b' :: 'r' :: '>' :: intercalateBR cs

theorem replaceNL_intercalateBR (t : List Char) :
    replaceNL t = intercalateBR (splitNL t) := by
  induction t with
  | nil => rfl
  | cons c cs ih =>
    rcases hs : splitNL cs with - | ⟨chunk, rest⟩
    · exact absurd hs (splitNL_ne_nil cs)
    · have hsplit : splitNL (c :: cs)
          = if c = '\n' then [] :: chunk :: rest else (c :: chunk) :: rest := by
        unfold splitNL
        rw [hs]
      rw [hs] at ih
      rw [hsplit]
      by_cases hc : c = '\n'
      · rw [if_pos hc]
        subst hc
        show '<' :: 'b' :: 'r' :: '>' :: replaceNL cs = _
        rw [ih]
        rfl
      · rw [if_neg hc]
        have hr : replaceNL (c :: cs) = c :: replaceNL cs := by
          show (if c = '\n' then '<' :: 'b' :: 'r' :: '>' :: replaceNL cs
            else c :: replaceNL cs) = _
          rw [if_neg hc]
        rw [hr, ih]
        cases rest with
        | nil => rfl
        | cons r rs => rfl

/-- Specification device describing the parser's run over a replaced text:
the nodes flushed up to and including the last br, and the text run still
buffered at the end (which may keep coalescing into what follows). -/
def brNodes (buf : List Char) : List (List Char) → List HtmlNode × List Char
  | [] => ([], buf)
  | [c] => ([], buf ++ c)
  | c :: cs =>
    (flushNode (buf ++ c) ++ HtmlNode.br :: (brNodes [] cs).1, (brNodes [] cs).2)

theorem parse_chunks (chunks : List (List Char))
    (hp : ∀ ch ∈ chunks, ∀ c ∈ ch, c ≠ '<' ∧ c ≠ '&') :
    ∀ buf cur stack X,
      List.foldl htmlStep (⟨ScanMode.text, buf, cur, stack⟩ : ScanState)
          (intercalateBR chunks ++ X)
        = List.foldl htmlStep
            ⟨ScanMode.text, (brNodes buf chunks).2, cur ++ (brNodes buf chunks).1,
              stack⟩ X := by
  induction chunks with
  | nil => intro buf cur stack X; simp [intercalateBR, brNodes]
  | cons c cs ih =>
    intro buf cur stack X
    cases cs with
    | nil =>
      show List.foldl htmlStep (⟨ScanMode.text, buf, cur, stack⟩ : ScanState)
          (c ++ X) = _
      rw [parse_lit_run c (hp c (List.mem_cons_self c []))]
      simp [brNodes]
    | cons d ds =>
      show List.foldl htmlStep (⟨ScanMode.text, buf, cur, stack⟩ : ScanState)
          ((c ++ '<' :: 'b' :: 'r' :: '>' :: intercalateBR (d :: ds)) ++ X) = _
      rw [List.append_assoc]
      rw [parse_lit_run c (hp c (List.mem_cons_self c (d :: ds)))]
      show List.foldl htmlStep
          (⟨ScanMode.text, buf ++ c, cur, stack⟩ : ScanState)
          ('<' :: 'b' :: 'r' :: '>' :: (intercalateBR (d :: ds) ++ X)) = _
      rw [parse_br]
      rw [ih (fun x hx => hp x (List.mem_cons_of_mem c hx))]
      show List.foldl htmlStep
          (⟨ScanMode.text, (brNodes [] (d :: ds)).2,
            (cur ++ flushNode (buf ++ c) ++ [HtmlNode.br])
              ++ (brNodes [] (d :: ds)).1, stack⟩ : ScanState) X
        = List.foldl htmlStep
            ⟨ScanMode.text, (brNodes [] (d :: ds)).2,
              cur ++ (flushNode (buf ++ c)
                ++ HtmlNode.br :: (brNodes [] (d :: ds)).1), stack⟩ X
      simp [List.append_assoc]

theorem brNodes_textNodes (chunks : List (List Char)) :
    (brNodes [] chunks).1 ++ flushNode (brNodes [] chunks).2
      = textNodesOfChunks chunks := by
  induction chunks with
  | nil => simp [brNodes, textNodesOfChunks, flushNode]
  | cons c cs ih =>
    cases cs with
    | nil =>
      show ([] : List HtmlNode) ++ flushNode ([] ++ c) = textNodesOfChunks [c]
      rw [List.nil_append, List.nil_append]
      rfl
    | cons d ds =>
      show (flushNode ([] ++ c) ++ HtmlNode.br :: (brNodes [] (d :: ds)).1)
          ++ flushNode (brNodes [] (d :: ds)).2 = textNodesOfChunks (c :: d :: ds)
      rw [List.nil_append, List.append_assoc]
      rw [show (HtmlNode.br :: (brNodes [] (d :: ds)).1)
            ++ flushNode (brNodes [] (d :: ds)).2
          = HtmlNode.br :: ((brNodes [] (d :: ds)).1
              ++ flushNode (brNodes [] (d :: ds)).2) from rfl]
      rw [ih]
      rfl

theorem coalesce_textNodes (chunks : List (List Char)) :
    ∀ buf ns, coalesceTopAux buf (textNodesOfChunks chunks ++ ns)
      = (brNodes buf chunks).1 ++ coalesceTopAux (brNodes buf chunks).2 ns := by
  induction chunks with
  | nil => intro buf ns; simp [textNodesOfChunks, brNodes]
  | cons c cs ih =>
    intro buf ns
    cases cs with
    | nil =>
      show coalesceTopAux buf ((if c.isEmpty then [] else [HtmlNode.text c]) ++ ns)
        = ([] : List HtmlNode) ++ coalesceTopAux (buf ++ c) ns
      rw [List.nil_append]
      cases hc : c.isEmpty
      · rw [if_neg (show ¬ (false = true) by simp)]
        rfl
      · rw [if_pos rfl]
        have hce : c = [] := by simpa using hc
        rw [hce, List.append_nil, List.nil_append]
    | cons d ds =>
      show coalesceTopAux buf
          (((if c.isEmpty then ([] : List HtmlNode) else [HtmlNode.text c])
            ++ HtmlNode.br :: textNodesOfChunks (d :: ds)) ++ ns)
        = (flushNode (buf ++ c) ++ HtmlNode.br :: (brNodes [] (d :: ds)).1)
            ++ coalesceTopAux (brNodes [] (d :: ds)).2 ns
      rw [List.append_assoc]
      cases hc : c.isEmpty
      · rw [if_neg (show ¬ (false = true) by simp)]
        show coalesceTopAux (buf ++ c)
            (HtmlNode.br :: (textNodesOfChunks (d :: ds) ++ ns)) = _
        show flushNode (buf ++ c)
            ++ HtmlNode.br :: coalesceTopAux [] (textNodesOfChunks (d :: ds) ++ ns) = _
        rw [ih]
        simp [List.append_assoc]
      · rw [if_pos rfl]
        have hce : c = [] := by simpa using hc
        show flushNode buf
            ++ HtmlNode.br :: coalesceTopAux [] (textNodesOfChunks (d :: ds) ++ ns) = _
        rw [ih]
        simp [hce, List.append_assoc]

/-- The open-tag list of a span's wrappers, outermost first. -/
def tagList (sp : TextSpan) : List HtmlTag :=
  (if truthy sp.strikethrough then [HtmlTag.s] else [])
    ++ (if truthy sp.underline then [HtmlTag.u] else [])
    ++ (if truthy sp.italic then [HtmlTag.i] else [])
    ++ (if truthy sp.bold then [HtmlTag.b] else [])

/-- Nested wrapping of a markup string in a tag list, outermost first. -/
def wrapStrList : List HtmlTag → List Char → List Char
  | [], inner => inner
  | tg :: ts, inner => openChars tg ++ wrapStrList ts inner ++ closeChars tg

/-- Nested wrapping of a node list in a tag list, outermost first. -/
def nestElems : List HtmlTag → List HtmlNode → List HtmlNode
  | [], inner => inner
  | tg :: ts, inner => [HtmlNode.elem tg (nestElems ts inner)]

theorem convertSpanToHtml_tagList (sp : TextSpan) :
    convertSpanToHtml sp = wrapStrList (tagList sp) (replaceNL sp.text) := by
  unfold convertSpanToHtml tagList wrapChars
  cases truthy sp.strikethrough <;> cases truthy sp.underline <;>
    cases truthy sp.italic <;> cases truthy sp.bold <;>
      simp [wrapStrList]

theorem spanTree_tagList (sp : TextSpan) :
    spanTree sp = nestElems (tagList sp) (textNodesOfChunks (splitNL sp.text)) := by
  unfold spanTree tagList wrapIf
  cases truthy sp.strikethrough <;> cases truthy sp.underline <;>
    cases truthy sp.italic <;> cases truthy sp.bold <;>
      simp [nestElems]

theorem tagList_style (sp : TextSpan) : ∀ tg ∈ tagList sp, styleTag tg := by
  intro tg htg
  unfold styleTag
  unfold tagList at htg
  cases truthy sp.strikethrough <;> cases truthy sp.underline <;>
    cases truthy sp.italic <;> cases truthy sp.bold <;> simp at htg <;> tauto

theorem tagList_nil_flags (sp : TextSpan) (h : tagList sp = []) :
    truthy sp.bold = false ∧ truthy sp.italic = false ∧
      truthy sp.underline = false ∧ truthy sp.strikethrough = false := by
  unfold tagList at h
  cases hb : truthy sp.bold <;> cases hi : truthy sp.italic <;>
    cases hu : truthy sp.underline <;> cases hs : truthy sp.strikethrough <;>
      simp_all

theorem normFlag_none (o : Option Bool) (h1 : normFlag o)
    (h2 : truthy o = false) : o = none := by
  rcases h1 with rfl | rfl
  · rfl
  · simp [truthy] at h2

theorem unstyled_eta (sp : TextSpan) (hn : normSpan sp) (h : tagList sp = []) :
    sp = { text := sp.text, bold := none, italic := none, underline := none,
           strikethrough := none } := by
  obtain ⟨-, hb, hi, hu, hs⟩ := hn
  obtain ⟨fb, fi, fu, fs⟩ := tagList_nil_flags sp h
  have h1 := normFlag_none sp.bold hb fb
  have h2 := normFlag_none sp.italic hi fi
  have h3 := normFlag_none sp.underline hu fu
  have h4 := normFlag_none sp.strikethrough hs fs
  cases sp
  simp_all

theorem parse_wrapped (txt : List Char) (hp : plainText txt) :
    ∀ ts, (∀ t ∈ ts, styleTag t) → ts ≠ [] →
      ∀ buf cur stack X,
        List.foldl htmlStep (⟨ScanMode.text, buf, cur, stack⟩ : ScanState)
            (wrapStrList ts (replaceNL txt) ++ X)
          = List.foldl htmlStep
              ⟨ScanMode.text, [], cur ++ flushNode buf
                ++ nestElems ts (textNodesOfChunks (splitNL txt)), stack⟩ X := by
  intro ts
  induction ts with
  | nil => intro _ hne; exact absurd rfl hne
  | cons tg ts' ih =>
    intro hts _ buf cur stack X
    show List.foldl htmlStep (⟨ScanMode.text, buf, cur, stack⟩ : ScanState)
        (((openChars tg ++ wrapStrList ts' (replaceNL txt)) ++ closeChars tg)
          ++ X) = _
    rw [List.append_assoc, List.append_assoc]
    rw [parse_open_tag tg (hts tg (List.mem_cons_self tg ts'))]
    cases ts' with
    | nil =>
      show List.foldl htmlStep
          (⟨ScanMode.text, [], [], (tg, cur ++ flushNode buf) :: stack⟩ : ScanState)
          (replaceNL txt ++ (closeChars tg ++ X)) = _
      rw [replaceNL_intercalateBR]
      rw [parse_chunks (splitNL txt) (plainText_splitNL txt hp)]
      rw [List.nil_append]
      rw [parse_close_tag tg (hts tg (List.mem_cons_self tg []))]
      rw [brNodes_textNodes]
      simp [nestElems, List.append_assoc]
    | cons tg2 ts'' =>
      rw [ih (fun t ht => hts t (List.mem_cons_of_mem tg ht)) (by simp)]
      rw [parse_close_tag tg (hts tg (List.mem_cons_self tg (tg2 :: ts'')))]
      simp [nestElems, flushNode, List.append_assoc]

/-- Specification device: the top-level nodes the parse of an encoded span
sequence has flushed, paired with the text run still pending, given a
pending run on the left.  A styled span contributes its complete element
tree and resets the run; an unstyled span contributes through brNodes, its
trailing chunk staying in the run to coalesce with what follows. -/
def docNodes (buf : List Char) : List TextSpan → List HtmlNode × List Char
  | [] => ([], buf)
  | sp :: rest =>
    if tagList sp = [] then
      ((brNodes buf (splitNL sp.text)).1
          ++ (docNodes (brNodes buf (splitNL sp.text)).2 rest).1,
        (docNodes (brNodes buf (splitNL sp.text)).2 rest).2)
    else
      (flushNode buf ++ spanTree sp ++ (docNodes [] rest).1, (docNodes [] rest).2)

theorem parse_encode (spans : List TextSpan)
    (hp : ∀ sp ∈ spans, plainText sp.text) :
    ∀ buf cur,
      List.foldl htmlStep (⟨ScanMode.text, buf, cur, []⟩ : ScanState)
          (convertSpansToHtml spans)
        = ⟨ScanMode.text, (docNodes buf spans).2, cur ++ (docNodes buf spans).1,
            []⟩ := by
  induction spans with
  | nil =>
    intro buf cur
    show (⟨ScanMode.text, buf, cur, []⟩ : ScanState) = _
    simp [docNodes]
  | cons sp rest ih =>
    intro buf cur
    show List.foldl htmlStep (⟨ScanMode.text, buf, cur, []⟩ : ScanState)
        (convertSpanToHtml sp ++ convertSpansToHtml rest) = _
    rw [convertSpanToHtml_tagList]
    rcases htl : tagList sp with - | ⟨tg, ts⟩
    · show List.foldl htmlStep (⟨ScanMode.text, buf, cur, []⟩ : ScanState)
          (replaceNL sp.text ++ convertSpansToHtml rest) = _
      rw [replaceNL_intercalateBR]
      rw [parse_chunks (splitNL sp.text)
        (plainText_splitNL sp.text (hp sp (List.mem_cons_self sp rest)))]
      rw [ih (fun q hq => hp q (List.mem_cons_of_mem sp hq))]
      simp only [docNodes]
      rw [if_pos htl]
      simp [List.append_assoc]
    · show List.foldl htmlStep (⟨ScanMode.text, buf, cur, []⟩ : ScanState)
          (wrapStrList (tg :: ts) (replaceNL sp.text) ++ convertSpansToHtml rest)
        = _
      rw [parse_wrapped sp.text (hp sp (List.mem_cons_self sp rest)) (tg :: ts)
        (by rw [← htl]; exact tagList_style sp) (by simp)]
      rw [ih (fun q hq => hp q (List.mem_cons_of_mem sp hq))]
      simp only [docNodes]
      rw [if_neg (by rw [htl]; simp)]
      rw [spanTree_tagList, htl]
      simp [List.append_assoc]

theorem docNodes_coalesce (spans : List TextSpan) :
    ∀ buf, coalesceTopAux buf (docTree spans)
      = (docNodes buf spans).1 ++ flushNode (docNodes buf spans).2 := by
  induction spans with
  | nil => intro buf; simp [docNodes, docTree, coalesceTopAux]
  | cons sp rest ih =>
    intro buf
    show coalesceTopAux buf (spanTree sp ++ docTree rest) = _
    by_cases htl : tagList sp = []
    · rw [show spanTree sp = textNodesOfChunks (splitNL sp.text) from by
        rw [spanTree_tagList, htl]; rfl]
      rw [coalesce_textNodes]
      rw [ih]
      simp only [docNodes]
      rw [if_pos htl]
      simp [List.append_assoc]
    · rcases hts : tagList sp with - | ⟨tg, ts⟩
      · exact absurd hts htl
      · rw [show spanTree sp ++ docTree rest
            = HtmlNode.elem tg (nestElems ts (textNodesOfChunks (splitNL sp.text)))
              :: docTree rest from by rw [spanTree_tagList, hts]; rfl]
        show flushNode buf
            ++ HtmlNode.elem tg (nestElems ts (textNodesOfChunks (splitNL sp.text)))
              :: coalesceTopAux [] (docTree rest) = _
        rw [ih]
        simp only [docNodes]
        rw [if_neg htl]
        rw [spanTree_tagList, hts]
        simp [nestElems, List.append_assoc]

/-- Fold the merge step over a flushed top-level text run: a no-op for the
empty run, one merge step for a nonempty one. -/
def pushText (m : List TextSpan) (t : List Char) : List TextSpan :=
  if t.isEmpty then m
  else mergeStep m { text := t, bold := none, italic := none,
                     underline := none, strikethrough := none }

theorem pushText_nil (m : List TextSpan) : pushText m [] = m := rfl

theorem pushText_append (m : List TextSpan) (a b : List Char) :
    pushText (pushText m a) b = pushText m (a ++ b) := by
  rcases a with - | ⟨x, xs⟩
  · rw [pushText_nil, List.nil_append]
  · rcases b with - | ⟨y, ys⟩
    · rw [List.append_nil]
      rw [pushText_nil]
    · have h : sameFlags
          { text := x :: xs, bold := none, italic := none, underline := none,
            strikethrough := none }
          { text := y :: ys, bold := none, italic := none, underline := none,
            strikethrough := none } = true := rfl
      show mergeStep (mergeStep m
          { text := x :: xs, bold := none, italic := none, underline := none,
            strikethrough := none })
          { text := y :: ys, bold := none, italic := none, underline := none,
            strikethrough := none } = pushText m ((x :: xs) ++ (y :: ys))
      rw [mergeStep_mergeStep m _ _ h]
      rfl

theorem foldl_traverse_flush (buf : List Char) (acc m : List TextSpan) :
    List.foldl mergeStep m (traverseList {} acc (flushNode buf))
      = pushText (List.foldl mergeStep m acc) buf := by
  rcases buf with - | ⟨c, cs⟩
  · rfl
  · show List.foldl mergeStep m (traverseList {} acc [HtmlNode.text (c :: cs)]) = _
    show List.foldl mergeStep m (acc ++ [spanOfCtx (c :: cs) {}]) = _
    rw [List.foldl_append]
    rfl

theorem fold_brNodes (chunks : List (List Char)) :
    ∀ buf acc m,
      pushText (List.foldl mergeStep m
          (traverseList {} acc (brNodes buf chunks).1)) (brNodes buf chunks).2
        = pushText (List.foldl mergeStep m acc) (buf ++ intercalateNL chunks) := by
  induction chunks with
  | nil =>
    intro buf acc m
    show pushText (List.foldl mergeStep m (traverseList {} acc [])) buf
      = pushText (List.foldl mergeStep m acc) (buf ++ intercalateNL [])
    rw [show intercalateNL [] = [] from rfl, List.append_nil]
    rfl
  | cons c cs ih =>
    intro buf acc m
    cases cs with
    | nil =>
      show pushText (List.foldl mergeStep m (traverseList {} acc [])) (buf ++ c)
        = pushText (List.foldl mergeStep m acc) (buf ++ intercalateNL [c])
      rfl
    | cons d ds =>
      show pushText (List.foldl mergeStep m (traverseList {} acc
          (flushNode (buf ++ c) ++ HtmlNode.br :: (brNodes [] (d :: ds)).1)))
          (brNodes [] (d :: ds)).2
        = pushText (List.foldl mergeStep m acc) (buf ++ intercalateNL (c :: d :: ds))
      rw [traverseList_append]
      show pushText (List.foldl mergeStep m (traverseList {}
          (traverseList {} acc (flushNode (buf ++ c)) ++ [spanOfCtx ['\n'] {}])
          (brNodes [] (d :: ds)).1)) (brNodes [] (d :: ds)).2 = _
      rw [ih]
      rw [List.nil_append]
      rw [List.foldl_append]
      show pushText (pushText (List.foldl mergeStep m
          (traverseList {} acc (flushNode (buf ++ c)))) ['\n'])
          (intercalateNL (d :: ds))
        = pushText (List.foldl mergeStep m acc) (buf ++ intercalateNL (c :: d :: ds))
      rw [foldl_traverse_flush]
      rw [pushText_append, pushText_append]
      congr 1
      show ((buf ++ c) ++ (['\n'] ++ intercalateNL (d :: ds)))
        = buf ++ (c ++ '\n' :: intercalateNL (d :: ds))
      simp [List.append_assoc]

theorem fold_parse_docTree (spans : List TextSpan)
    (hn : ∀ sp ∈ spans, normSpan sp) :
    ∀ buf acc m,
      List.foldl mergeStep m (traverseList {} acc
          (coalesceTopAux buf (docTree spans)))
        = List.foldl mergeStep (pushText (List.foldl mergeStep m acc) buf) spans := by
  induction spans with
  | nil =>
    intro buf acc m
    show List.foldl mergeStep m (traverseList {} acc (flushNode buf)) = _
    rw [foldl_traverse_flush]
    rfl
  | cons sp rest ih =>
    intro buf acc m
    have hsp := hn sp (List.mem_cons_self sp rest)
    show List.foldl mergeStep m (traverseList {} acc
        (coalesceTopAux buf (spanTree sp ++ docTree rest))) = _
    rw [spanTree_tagList]
    rcases htl : tagList sp with - | ⟨tg, ts⟩
    · show List.foldl mergeStep m (traverseList {} acc
          (coalesceTopAux buf (textNodesOfChunks (splitNL sp.text) ++ docTree rest)))
        = _
      rw [coalesce_textNodes]
      rw [traverseList_append]
      rw [ih (fun q hq => hn q (List.mem_cons_of_mem sp hq))]
      rw [fold_brNodes]
      rw [intercalateNL_splitNL]
      rw [← pushText_append]
      rcases ht : sp.text with - | ⟨x, xs⟩
      · exact absurd ht hsp.1
      · show List.foldl mergeStep
            (mergeStep (pushText (List.foldl mergeStep m acc) buf)
              { text := x :: xs, bold := none, italic := none, underline := none,
                strikethrough := none }) rest = _
        rw [← ht]
        rw [← unstyled_eta sp hsp htl]
        rfl
    · show List.foldl mergeStep m (traverseList {} acc (flushNode buf
          ++ (nestElems (tg :: ts) (textNodesOfChunks (splitNL sp.text))
            ++ coalesceTopAux [] (docTree rest)))) = _
      rw [traverseList_append, traverseList_append]
      rw [← htl, ← spanTree_tagList sp]
      rw [traverseList_spanTree]
      rw [traverseList_textNodes]
      rw [ih (fun q hq => hn q (List.mem_cons_of_mem sp hq))]
      rw [pushText_nil]
      rw [List.foldl_append]
      rw [show chunkSpans (ctxOf sp) (splitNL sp.text) = rawSpan sp from rfl]
      rw [rawSpan_merge sp hsp]
      rw [foldl_traverse_flush]
      rfl

/-- C4 counterexample: a single span with empty text is dropped entirely by
the encode/decode roundtrip (its markup is the empty string), while merging
leaves it in place, so decode(encode(spans)) differs from merge(spans) on
that input. -/
theorem C4_counterexample :
    parseHtmlToSpans (convertSpansToHtml [{ text := [] }])
      ≠ mergeSpans [{ text := [] }] := by
  rw [show convertSpansToHtml [{ text := [] }] = [] from rfl]
  rw [show parseHtmlToSpans [] = [] from rfl]
  rw [show mergeSpans [{ text := [] }] = [{ text := [] }] from rfl]
  simp

/-- Markup characters in a span's text are NOT preserved by the roundtrip:
the encoder copies the text "a<b>c" into the markup string unescaped, and
the innerHTML re-parse reads the embedded b tag as markup, so the input
decodes to "a" followed by a bold "c".  This is the behaviour that forces
the markup-free restriction of the roundtrip theorem. -/
theorem markup_text_reparsed :
    parseHtmlToSpans (convertSpansToHtml [{ text := ['a', '<', 'b', '>', 'c'] }])
      = [{ text := ['a'] }, { text := ['c'], bold := some true }] := by
  decide

/-- C4 amended: for every span sequence whose spans all have nonempty,
markup-free text (no literal < or &, which the unescaped encoder would let
the innerHTML re-parse read as a tag or an entity) and only absent-or-true
style flags (no explicit false — the shape the decoder itself produces),
decoding the markup string produced by encoding equals the sequence after
merging adjacent runs with identical flag sets.  Spans with empty text are
dropped by the roundtrip, an explicit false flag is normalized to absent,
and markup-significant characters are re-parsed as markup, which is why
those inputs are excluded. -/
theorem C4_codec_roundtrip (spans : List TextSpan)
    (hn : ∀ sp ∈ spans, normSpan sp)
    (hp : ∀ sp ∈ spans, plainText sp.text) :
    parseHtmlToSpans (convertSpansToHtml spans) = mergeSpans spans := by
  unfold parseHtmlToSpans innerHTMLParse
  rw [parse_encode spans hp [] []]
  show mergeSpans (traverseList {} []
      ((docNodes [] spans).1 ++ flushNode (docNodes [] spans).2)) = mergeSpans spans
  rw [← docNodes_coalesce]
  unfold mergeSpans
  rw [fold_parse_docTree spans hn [] [] []]
  rfl

/-- The all-flag-combination list used to witness the roundtrip. -/
def c4Spans : List TextSpan :=
  [{ text := ['a'], bold := some true },
   { text := ['b', '\n', 'c'], italic := some true, strikethrough := some true },
   { text := ['d'] },
   { text := ['e'] },
   { text := ['f'], bold := some true, italic := some true,
     underline := some true, strikethrough := some true }]

theorem C4_codec_roundtrip_witness :
    parseHtmlToSpans (convertSpansToHtml c4Spans) = mergeSpans c4Spans :=
  C4_codec_roundtrip c4Spans (by decide) (by decide)

end Canvas
